import Mathlib

/-!
Console metrics sink (`pkg/stats/sink/console/console.go`)

A shallow embedding of `ConsoleSink.Flush` and `makeNamespace`, and the
properties of the snapshot they build.

Conventions of the embedding:

* Go `string` values are Lean `String`s (valid UTF-8 text).
* A Go `map[string]V` is an association list with unique keys; `GoMap.set`
  is the Go assignment `m[k] = v`, `GoMap.get?` the Go lookup `v, ok := m[k]`.
* A run-time panic (index out of range) is the result `none`.
* `int64` readings are `Int`s: the code only formats them, no arithmetic
  is done on them.
-/

namespace Console

/-! ## Go maps -/

/-- A Go `map[string]V`: association list, every key at most once. -/
abbrev GoMap (V : Type) := List (String × V)

namespace GoMap

/-- Go lookup `v, ok := m[k]`. -/
def get? {V : Type} : GoMap V → String → Option V
  | [], _ => none
  | (k', v) :: rest, k => if k' = k then some v else get? rest k

/-- Go assignment `m[k] = v`: overwrite the entry of `k`, or add one. -/
def set {V : Type} : GoMap V → String → V → GoMap V
  | [], k, v => [(k, v)]
  | (k', v') :: rest, k, v =>
    if k' = k then (k, v) :: rest else (k', v') :: set rest k v

/-- The keys of the map. -/
def keys {V : Type} (m : GoMap V) : List String := m.map Prod.fst

end GoMap

/-! ## makeNamespace -/

/-- The loop of `makeNamespace`: `fuel` is `len(vals) - i`; each round does
`namespace += keys[i] + "." + vals[i]`. An index out of range is `none`. -/
def makeNamespaceLoop (keys vals : List String) : Nat → Nat → String → Option String
  | 0, _, ns => some ns
  | fuel + 1, i, ns =>
    match keys[i]?, vals[i]? with
    | some k, some v => makeNamespaceLoop keys vals fuel (i + 1) (ns ++ (k ++ "." ++ v))
    | _, _ => none

/-- Go `makeNamespace(keys, vals)`: `for i := 0; i < len(vals); i++`. -/
def makeNamespace (keys vals : List String) : Option String :=
  makeNamespaceLoop keys vals vals.length 0 ""

/-! ## strconv.FormatInt -/

/-- The character of one decimal digit `d < 10`. -/
def digitChar (d : Nat) : Char := Char.ofNat (48 + d)

/-- The decimal digits of `n`, most significant first; `fuel` bounds the
number of digits (`n + 1` always suffices). -/
def decimalDigits : Nat → Nat → List Char
  | 0, _ => []
  | fuel + 1, n =>
    if n < 10 then [digitChar n]
    else decimalDigits fuel (n / 10) ++ [digitChar (n % 10)]

/-- The decimal string of a natural number. -/
def formatNat (n : Nat) : String := String.mk (decimalDigits (n + 1) n)

/-- Go `strconv.FormatInt(i, 10)`: the decimal digits of the magnitude,
preceded by `-` when `i` is negative. -/
def FormatInt (i : Int) : String :=
  if i < 0 then "-" ++ formatNat i.natAbs else formatNat i.natAbs

/-- The value of a decimal digit character. -/
def digitValue (c : Char) : Nat := c.toNat - 48

/-- The number a list of decimal digits denotes, most significant first. -/
def decimalValue (cs : List Char) : Nat :=
  cs.foldl (fun acc c => 10 * acc + digitValue c) 0

/-- The integer a decimal string denotes: digits, after `-` for a negative
number. -/
def parseInt (s : String) : Int :=
  if s.data.head? = some '-' then -(decimalValue s.data.tail : Int)
  else (decimalValue s.data : Int)

/-! ## float64 and strconv.FormatFloat(x, 'f', 2, 64) -/

/-- A `float64` value: `finite neg m e` is `(-1)^neg * m * 2^e`. -/
inductive Float64 where
  | finite (neg : Bool) (m : Nat) (e : Int)
  | inf (neg : Bool)
  | nan

/-- `n / d` rounded to the nearest integer, ties to even. -/
def divRoundHalfEven (n d : Nat) : Nat :=
  let q := n / d
  let r := n % d
  if 2 * r < d then q
  else if d < 2 * r then q + 1
  else if q % 2 = 0 then q else q + 1

/-- The position of the leading bit of `n` (`0` for `n < 2`); `fuel` bounds
the number of halvings (`n` always suffices). -/
def leadingBit : Nat → Nat → Nat
  | 0, _ => 0
  | fuel + 1, n => if n < 2 then 0 else leadingBit fuel (n / 2) + 1

/-- The `float64` nearest to `(-1)^neg * m * 2^e` (round to nearest, ties to
even; 53 bits of precision, exponent of the last bit between -1074 and 971). -/
def Float64.round (neg : Bool) (m : Nat) (e : Int) : Float64 :=
  if m = 0 then .finite neg 0 0
  else
    let top : Int := e + (leadingBit m m : Int)
    let q : Int := max (top - 52) (-1074)
    let m' : Nat :=
      if q ≤ e then m * 2 ^ (e - q).toNat
      else divRoundHalfEven m (2 ^ (q - e).toNat)
    if 971 < q ∨ (q = 971 ∧ 2 ^ 53 ≤ m') then .inf neg
    else .finite neg m' q

/-- Go `x * y` on `float64`. -/
def Float64.mul : Float64 → Float64 → Float64
  | .finite n₁ m₁ e₁, .finite n₂ m₂ e₂ => Float64.round (xor n₁ n₂) (m₁ * m₂) (e₁ + e₂)
  | .finite n₁ m₁ _, .inf n₂ => if m₁ = 0 then .nan else .inf (xor n₁ n₂)
  | .inf n₁, .finite n₂ m₂ _ => if m₂ = 0 then .nan else .inf (xor n₁ n₂)
  | .inf n₁, .inf n₂ => .inf (xor n₁ n₂)
  | .nan, _ => .nan
  | _, .nan => .nan

/-- The `float64` of a non-negative integer constant. -/
def Float64.ofNat (n : Nat) : Float64 := Float64.round false n 0

/-- The number of hundredths nearest to `m * 2^e` (ties to even). -/
def hundredths (m : Nat) (e : Int) : Nat :=
  if 0 ≤ e then m * 100 * 2 ^ e.toNat
  else divRoundHalfEven (m * 100) (2 ^ (-e).toNat)

/-- Go `strconv.FormatFloat(x, 'f', 2, 64)`: sign, integer part, a point and
exactly two decimals, the exact value rounded half to even. -/
def FormatFloat : Float64 → String
  | .nan => "NaN"
  | .inf false => "+Inf"
  | .inf true => "-Inf"
  | .finite neg m e =>
    let r := hundredths m e
    (if neg then "-" else "") ++ formatNat (r / 100) ++ "." ++
      String.mk [digitChar (r / 10 % 10), digitChar (r % 10)]

/-- The package variable `percents`: the `float64` values nearest to
0.5, 0.75, 0.95, 0.99 and 0.999. -/
def percents : List Float64 :=
  [ .finite false 1 (-1),
    .finite false 3 (-2),
    .finite false 4278419646001971 (-52),
    .finite false 4458563631096791 (-52),
    .finite false 8998192055486251 (-53) ]

/-! ## Metrics -/

/-- Modelled from the spec: a histogram snapshot of the go-metrics library
(`metrics.Histogram` after `Snapshot()`), which the sources only import.
`Percentiles(ps)` computes one score per requested quantile, so it is given
by the score `percentile p` of a single quantile. -/
structure Histogram where
  percentile : Float64 → Float64
  count : Int
  min : Int
  max : Int
  mean : Float64
  stdDev : Float64

/-- Go `h.Percentiles(ps)`: one score for every entry of `ps`. -/
def Histogram.Percentiles (h : Histogram) (ps : List Float64) : List Float64 :=
  ps.map h.percentile

/-- The dynamic type of the value handed to the callback of `Each`, with the
readings the callback takes from it: the three cases of the type switch and
its `default`. -/
inductive Metric where
  | counter (count : Int)
  | gauge (value : Int)
  | histogram (h : Histogram)
  | unsupported

/-- Modelled from the spec: the interface `types.Metrics` (declared in
`pkg/types`, outside the sources): `Type()`, the two lists returned by
`SortedLabels()`, and the named sub-metrics in the order in which `Each`
hands them to its callback. -/
structure Metrics where
  type : String
  labelKeys : List String
  labelVals : List String
  each : List (String × Metric)

/-- Go `NamespaceData`: `map[string]string`. -/
abbrev NamespaceData := GoMap String

/-- The local `all` of `Flush`: type -> namespace -> key -> value. -/
abbrev Snapshot := GoMap (GoMap NamespaceData)

/-! ## Flush -/

/-- The histogram loop `for index := range percents`: one key per quantile. -/
def flushPercentiles (key : String) (ps : List Float64) (nd : NamespaceData) :
    NamespaceData :=
  (List.range percents.length).foldl
    (fun nd index =>
      nd.set
        (key ++ "." ++
          FormatFloat (Float64.mul (percents.getD index .nan) (Float64.ofNat 100)) ++ "%")
        (FormatFloat (ps.getD index .nan)))
    nd

/-- The callback passed to `m.Each`: the type switch on the sub-metric. -/
def flushEach (namespaceData : NamespaceData) (key : String) : Metric → NamespaceData
  | .counter count => namespaceData.set key (FormatInt count)
  | .gauge value => namespaceData.set key (FormatInt value)
  | .histogram h =>
    let ps := h.Percentiles percents
    let nd := flushPercentiles key ps namespaceData
    let nd := nd.set (key ++ ".count") (FormatInt h.count)
    let nd := nd.set (key ++ ".min") (FormatInt h.min)
    let nd := nd.set (key ++ ".max") (FormatInt h.max)
    let nd := nd.set (key ++ ".mean") (FormatFloat h.mean)
    nd.set (key ++ ".stddev") (FormatFloat h.stdDev)
  | .unsupported => namespaceData

/-- Go `m.Each(callback)`: the callback runs on every sub-metric in turn. -/
def flushEachAll (namespaceData : NamespaceData) (each : List (String × Metric)) :
    NamespaceData :=
  each.foldl (fun nd km => flushEach nd km.1 km.2) namespaceData

/-- The body of `for _, m := range ms`: look up or create the maps of the
type and of the namespace, then run `Each`. The inner maps are references in
Go, so the updated maps are stored back. -/
def flushMetrics (all : Snapshot) (m : Metrics) : Option Snapshot :=
  let typeData := (all.get? m.type).getD []
  match makeNamespace m.labelKeys m.labelVals with
  | none => none
  | some ns =>
    let namespaceData := (typeData.get? ns).getD []
    some (all.set m.type (typeData.set ns (flushEachAll namespaceData m.each)))

/-- The loop of `Flush` over `ms`, from a given `all`. -/
def flushLoop : Snapshot → List Metrics → Option Snapshot
  | all, [] => some all
  | all, m :: ms =>
    match flushMetrics all m with
    | none => none
    | some all' => flushLoop all' ms

/-- The snapshot `all` that `Flush` has built when its loop ends. -/
def buildSnapshot (ms : List Metrics) : Option Snapshot := flushLoop [] ms

/-- Three-level lookup `all[t][ns][k]`. -/
def Snapshot.lookup (all : Snapshot) (t ns k : String) : Option String :=
  match all.get? t with
  | none => none
  | some typeData =>
    match typeData.get? ns with
    | none => none
    | some namespaceData => namespaceData.get? k

/-! ## json.MarshalIndent(all, "", "\t") -/

/-- Byte order of two strings, as Go's `<` on strings: the order of the code
points is the order of their UTF-8 encodings. -/
def lessString : List Char → List Char → Bool
  | _, [] => false
  | [], _ :: _ => true
  | a :: as, b :: bs =>
    if a.toNat < b.toNat then true
    else if b.toNat < a.toNat then false
    else lessString as bs

/-- Insert an entry in a list of entries sorted by key. -/
def insertEntry {V : Type} (e : String × V) : List (String × V) → List (String × V)
  | [] => [e]
  | e' :: rest =>
    if lessString e'.1.data e.1.data then e' :: insertEntry e rest else e :: e' :: rest

/-- The entries of a map in the order of their keys: `encoding/json` writes
the keys of a map sorted. -/
def sortedEntries {V : Type} : GoMap V → List (String × V)
  | [] => []
  | e :: rest => insertEntry e (sortedEntries rest)

/-- One hexadecimal digit, lower case. -/
def hexChar (d : Nat) : Char :=
  if d < 10 then Char.ofNat (48 + d) else Char.ofNat (87 + d)

/-- How `encoding/json` writes one character inside a string (HTML escaping
on, as `json.Marshal` has it). -/
def encodeChar (c : Char) : List Char :=
  if c = '"' then ['\\', '"']
  else if c = '\\' then ['\\', '\\']
  else if c = '\n' then ['\\', 'n']
  else if c = '\r' then ['\\', 'r']
  else if c = '\t' then ['\\', 't']
  else if c.toNat < 32 ∨ c = '<' ∨ c = '>' ∨ c = '&' then
    ['\\', 'u', '0', '0', hexChar (c.toNat / 16), hexChar (c.toNat % 16)]
  else if c.toNat = 8232 then ['\\', 'u', '2', '0', '2', '8']
  else if c.toNat = 8233 then ['\\', 'u', '2', '0', '2', '9']
  else [c]

/-- A JSON string literal. -/
def encodeString (s : String) : String :=
  String.mk ('"' :: (s.data.flatMap encodeChar ++ ['"']))

/-- Indentation of `depth` levels, one tab each. -/
def indentation (depth : Nat) : String := String.mk (List.replicate depth '\t')

/-- A JSON object whose members are at nesting level `depth + 1`: `{}` when
empty, else one member per line, keys sorted. -/
def marshalObject {V : Type} (value : V → String) (depth : Nat) (m : GoMap V) : String :=
  match sortedEntries m with
  | [] => "\x7b\x7d"
  | entries =>
    "\x7b\n" ++
    String.intercalate ",\n"
      (entries.map fun e => indentation (depth + 1) ++ encodeString e.1 ++ ": " ++ value e.2) ++
    "\n" ++ indentation depth ++ "\x7d"

/-- Go `json.MarshalIndent(all, "", "\t")` on the three-level map. -/
def MarshalIndent (all : Snapshot) : String :=
  marshalObject (marshalObject (marshalObject encodeString 2) 1) 0 all

/-! ## The sink -/

/-- Go `ConsoleSink`: its only field refers to an `io.Writer`. -/
structure ConsoleSink where
  writer : Nat
deriving DecidableEq

/-- The writers of the program: for each writer, the byte slices its `Write`
has received, oldest first. -/
abbrev Writers := Nat → List String

/-- Go `w.Write(b)` on the writer referred to by `w`. -/
def Writers.write (ws : Writers) (w : Nat) (b : String) : Writers :=
  fun w' => if w' = w then ws w' ++ [b] else ws w'

/-- Go `(*ConsoleSink).Flush(ms)`: build `all`, marshal it, write it. The
result is the sink and the writers after the call; `none` is a panic. -/
def Flush (sink : ConsoleSink) (ws : Writers) (ms : List Metrics) :
    Option (ConsoleSink × Writers) :=
  match buildSnapshot ms with
  | none => none
  | some all =>
    let b := MarshalIndent all
    some (sink, ws.write sink.writer b)

/-- Go `NewConsoleSink(writer)`. -/
def NewConsoleSink (writer : Nat) : ConsoleSink := { writer := writer }

/-! ## The writes of a flush, in processing order -/

/-- The assignments `namespaceData[key'] = value` that the callback makes for
the sub-metric `i` enumerated under `key`, in the order it makes them. -/
def metricWrites (key : String) : Metric → List (String × String)
  | .counter count => [(key, FormatInt count)]
  | .gauge value => [(key, FormatInt value)]
  | .histogram h =>
    [ (key ++ ".50.00%", FormatFloat (h.percentile (.finite false 1 (-1)))),
      (key ++ ".75.00%", FormatFloat (h.percentile (.finite false 3 (-2)))),
      (key ++ ".95.00%", FormatFloat (h.percentile (.finite false 4278419646001971 (-52)))),
      (key ++ ".99.00%", FormatFloat (h.percentile (.finite false 4458563631096791 (-52)))),
      (key ++ ".99.90%", FormatFloat (h.percentile (.finite false 8998192055486251 (-53)))),
      (key ++ ".count", FormatInt h.count),
      (key ++ ".min", FormatInt h.min),
      (key ++ ".max", FormatInt h.max),
      (key ++ ".mean", FormatFloat h.mean),
      (key ++ ".stddev", FormatFloat h.stdDev) ]
  | .unsupported => []

/-- The mapping `all[t][ns]`, empty when the snapshot has none. -/
def Snapshot.namespaceData (all : Snapshot) (t ns : String) : NamespaceData :=
  (((all.get? t).getD []).get? ns).getD []

/-- The assignments of one group, over its whole enumeration. -/
def groupWrites (m : Metrics) : List (String × String) :=
  m.each.flatMap fun km => metricWrites km.1 km.2

/-- The assignments made to the mapping of type `t` and namespace `ns` during
a flush of `ms`, in processing order. -/
def writesTo (t ns : String) (ms : List Metrics) : List (String × String) :=
  ms.flatMap fun m =>
    if m.type = t ∧ makeNamespace m.labelKeys m.labelVals = some ns then groupWrites m else []

/-- Carry out a list of assignments on a map. -/
def applyWrites (nd : NamespaceData) (ws : List (String × String)) : NamespaceData :=
  ws.foldl (fun nd kv => nd.set kv.1 kv.2) nd

/-- The sub-metric is of a kind the type switch does not know. -/
def Metric.isUnsupported : Metric → Bool
  | .unsupported => true
  | _ => false

/-- A sequence of `Flush` calls on the same sink, one after the other. -/
def flushSeq (sink : ConsoleSink) (ws : Writers) :
    List (List Metrics) → Option (ConsoleSink × Writers)
  | [] => some (sink, ws)
  | ms :: rest =>
    match Flush sink ws ms with
    | none => none
    | some r => flushSeq r.1 r.2 rest

/-! ## The namespace as the specification words it -/

/-- The namespace in the words of the specification: every label key followed
by its value, pair after pair, nothing in between (`key1value1key2value2…`). -/
def specNamespace (keys vals : List String) : String :=
  String.join (List.zipWith (fun k v => k ++ v) keys vals)

/-! ## The keys of a histogram -/

/-- The ten keys derived from the key `k` of a histogram. -/
def histogramKeys (k : String) : List String :=
  [ k ++ ".50.00%", k ++ ".75.00%", k ++ ".95.00%", k ++ ".99.00%", k ++ ".99.90%",
    k ++ ".count", k ++ ".min", k ++ ".max", k ++ ".mean", k ++ ".stddev" ]

/-! ## What a call adds to the writer -/

/-- The byte slices the writer of `sink` holds in `after` beyond those it held
in `before`. -/
def newWrites (sink : ConsoleSink) (before after : Writers) : List String :=
  (after sink.writer).drop (before sink.writer).length

/-! ## Sample inputs -/

/-- A group with a counter, an unsupported sub-metric and a gauge. -/
def groupA : Metrics :=
  { type := "t", labelKeys := ["region", "az"], labelVals := ["us", "1a"],
    each := [("a", .counter 1), ("c", .counter 5), ("u", .unsupported), ("g", .gauge (-3))] }

/-- A later group of the same type and namespace as `groupA`. -/
def groupB : Metrics :=
  { type := "t", labelKeys := ["region", "az"], labelVals := ["us", "1a"],
    each := [("a", .gauge 7), ("d", .counter 2)] }

/-- A group of another type, without labels. -/
def groupC : Metrics :=
  { type := "s", labelKeys := [], labelVals := [], each := [("c", .counter 9)] }

/-- Three groups, flushed in this order. -/
def sampleGroups : List Metrics := [groupA, groupB, groupC]

/-- The snapshot of `sampleGroups`. -/
def sampleSnapshot : Snapshot :=
  [ ("t", [("region.usaz.1a", [("a", "7"), ("c", "5"), ("g", "-3"), ("d", "2")])]),
    ("s", [("", [("c", "9")])]) ]

/-- A group whose sub-metrics are all unsupported. -/
def groupU : Metrics :=
  { type := "t", labelKeys := ["region", "az"], labelVals := ["us", "1a"],
    each := [("a", .unsupported), ("x", .unsupported)] }

/-- A group with more label values than label keys. -/
def groupBad : Metrics :=
  { type := "t", labelKeys := [], labelVals := ["v"], each := [("c", .counter 1)] }

/-- A group whose only label has the key `a.b` and the value `c`. -/
def groupP : Metrics :=
  { type := "t", labelKeys := ["a.b"], labelVals := ["c"], each := [("x", .counter 1)] }

/-- A group of the type of `groupP` whose only label has the key `a` and the
value `b.c`. -/
def groupQ : Metrics :=
  { type := "t", labelKeys := ["a"], labelVals := ["b.c"], each := [("y", .counter 2)] }

/-- The snapshot has the namespace `ns` under the type `t`. -/
def Snapshot.hasNamespace (all : Snapshot) (t ns : String) : Prop :=
  ∃ typeData, all.get? t = some typeData ∧ ns ∈ typeData.keys

/-- The snapshot of `[groupC, groupU]`: the namespace of `groupU`, which has
only unsupported sub-metrics, holds the empty mapping. -/
def sampleSnapshotU : Snapshot :=
  [ ("s", [("", [("c", "9")])]), ("t", [("region.usaz.1a", [])]) ]

/-- Nothing processed after a sub-metric assigns to `key` in the mapping of
type `t` and namespace `ns`: neither the sub-metrics `e₂` enumerated after it
in its group, nor a later group `post` of that type and namespace. -/
def noLaterWrite (e₂ : List (String × Metric)) (post : List Metrics)
    (t ns key : String) : Prop :=
  (∀ km ∈ e₂, ∀ kv ∈ metricWrites km.1 km.2, kv.1 ≠ key) ∧
  (∀ m' ∈ post, m'.type = t → makeNamespace m'.labelKeys m'.labelVals = some ns →
    ∀ kv ∈ groupWrites m', kv.1 ≠ key)

/-- A histogram snapshot: 12 samples between -4 and 99, the score of a
quantile `p` being `1000 * p`. -/
def sampleHistogram : Histogram where
  percentile := fun p => Float64.mul p (Float64.ofNat 1000)
  count := 12
  min := -4
  max := 99
  mean := .finite false 5 (-1)
  stdDev := .finite false 1 (-3)

/-- A group that enumerates the histogram `lat` between a counter and a gauge
whose keys are two of the keys derived from `lat`. -/
def groupH : Metrics :=
  { type := "t", labelKeys := ["region"], labelVals := ["us"],
    each := [("lat.count", .counter 1), ("lat", .histogram sampleHistogram),
      ("lat.max", .gauge 2)] }

/-- A later group of the type and namespace of `groupH`. -/
def groupH2 : Metrics :=
  { type := "t", labelKeys := ["region"], labelVals := ["us"],
    each := [("lat.mean", .counter 3), ("lat", .gauge 8)] }

/-- The snapshot of `[groupH, groupH2, groupC]`. -/
def sampleSnapshotH : Snapshot :=
  [ ("t",
      [("region.us",
        [("lat.count", "12"), ("lat.50.00%", "500.00"), ("lat.75.00%", "750.00"),
         ("lat.95.00%", "950.00"), ("lat.99.00%", "990.00"), ("lat.99.90%", "999.00"),
         ("lat.min", "-4"), ("lat.max", "2"), ("lat.mean", "3"), ("lat.stddev", "0.12"),
         ("lat", "8")])]),
    ("s", [("", [("c", "9")])]) ]

/-- No writer has received anything. -/
def noWrites : Writers := fun _ => []

/-! ## Lemmas on Go maps -/

theorem GoMap.get?_set {V : Type} (m : GoMap V) (k k' : String) (v : V) :
    (m.set k v).get? k' = if k = k' then some v else m.get? k' := by
  induction m with
  | nil => simp [GoMap.set, GoMap.get?]
  | cons e rest ih =>
    obtain ⟨k₀, v₀⟩ := e
    by_cases h : k₀ = k
    · subst h
      by_cases h' : k₀ = k' <;> simp [GoMap.set, GoMap.get?, h']
    · by_cases h' : k = k'
      · subst h'
        simp [GoMap.set, GoMap.get?, h, ih]
      · simp [GoMap.set, GoMap.get?, h, h', ih]

theorem GoMap.get?_set_self {V : Type} (m : GoMap V) (k : String) (v : V) :
    (m.set k v).get? k = some v := by
  simp [GoMap.get?_set]

theorem GoMap.get?_set_ne {V : Type} (m : GoMap V) {k k' : String} (v : V) (h : k ≠ k') :
    (m.set k v).get? k' = m.get? k' := by
  simp [GoMap.get?_set, h]

theorem applyWrites_append (nd : NamespaceData) (ws₁ ws₂ : List (String × String)) :
    applyWrites nd (ws₁ ++ ws₂) = applyWrites (applyWrites nd ws₁) ws₂ := by
  simp [applyWrites, List.foldl_append]

/-- After a list of assignments none of which is to `k`, the entry of `k` is
what it was. -/
theorem get?_applyWrites_of_not_mem (ws : List (String × String)) (nd : NamespaceData)
    (k : String) (h : ∀ kv ∈ ws, kv.1 ≠ k) :
    (applyWrites nd ws).get? k = nd.get? k := by
  induction ws generalizing nd with
  | nil => rfl
  | cons kv rest ih =>
    have h₁ : kv.1 ≠ k := h kv (List.mem_cons_self _ _)
    have h₂ : ∀ kv' ∈ rest, kv'.1 ≠ k := fun kv' hm => h kv' (List.mem_cons_of_mem _ hm)
    show (applyWrites (nd.set kv.1 kv.2) rest).get? k = nd.get? k
    rw [ih _ h₂, GoMap.get?_set_ne _ _ h₁]

/-- The last assignment to a key decides its entry. -/
theorem get?_applyWrites_last (nd : NamespaceData) (pre post : List (String × String))
    (k v : String) (h : ∀ kv ∈ post, kv.1 ≠ k) :
    (applyWrites nd (pre ++ (k, v) :: post)).get? k = some v := by
  rw [applyWrites_append]
  show (applyWrites ((applyWrites nd pre).set k v) post).get? k = some v
  rw [get?_applyWrites_of_not_mem post _ k h, GoMap.get?_set_self]

/-! ## The callback and its list of assignments -/

set_option maxRecDepth 100000 in
/-- The five key suffixes `strconv.FormatFloat(percents[index]*100, 'f', 2, 64)`. -/
theorem percent_labels :
    percents.map (fun p => FormatFloat (Float64.mul p (Float64.ofNat 100)))
      = ["50.00", "75.00", "95.00", "99.00", "99.90"] := by
  decide

/-- `ps[index]` is in range in the histogram loop: `Percentiles` returns one
score per quantile. -/
theorem percentiles_length (h : Histogram) (ps : List Float64) :
    (h.Percentiles ps).length = ps.length := by
  simp [Histogram.Percentiles]

theorem flushPercentiles_eq (key : String) (h : Histogram) (nd : NamespaceData) :
    flushPercentiles key (h.Percentiles percents) nd
      = applyWrites nd ((metricWrites key (.histogram h)).take 5) := by
  have hl := percent_labels
  simp only [percents, List.map_cons, List.map_nil, List.cons.injEq, and_true] at hl
  obtain ⟨h0, h1, h2, h3, h4⟩ := hl
  simp only [flushPercentiles, percents, Histogram.Percentiles, List.length_cons,
    List.length_nil, List.range, List.range.loop, List.foldl_cons, List.foldl_nil,
    List.getD_cons_zero, List.getD_cons_succ, List.map_cons, List.map_nil,
    h0, h1, h2, h3, h4, applyWrites, metricWrites, List.take_succ_cons, List.take_zero,
    String.append_assoc]
  rfl

/-- The callback carries out exactly the assignments listed by `metricWrites`. -/
theorem flushEach_eq_applyWrites (nd : NamespaceData) (key : String) (i : Metric) :
    flushEach nd key i = applyWrites nd (metricWrites key i) := by
  cases i with
  | counter c => rfl
  | gauge v => rfl
  | histogram h =>
    simp only [flushEach, flushPercentiles_eq]
    rfl
  | unsupported => rfl

/-- The whole enumeration of a group carries out `groupWrites`. -/
theorem flushEachAll_eq_applyWrites (each : List (String × Metric)) (nd : NamespaceData) :
    flushEachAll nd each = applyWrites nd (each.flatMap fun km => metricWrites km.1 km.2) := by
  induction each generalizing nd with
  | nil => rfl
  | cons km rest ih =>
    show flushEachAll (flushEach nd km.1 km.2) rest = _
    rw [ih, flushEach_eq_applyWrites, List.flatMap_cons, applyWrites_append]

/-! ## The snapshot as the result of its assignments -/

theorem lookup_eq_namespaceData (all : Snapshot) (t ns k : String) :
    all.lookup t ns k = (all.namespaceData t ns).get? k := by
  unfold Snapshot.lookup Snapshot.namespaceData
  cases all.get? t with
  | none => simp [GoMap.get?]
  | some typeData =>
    cases h : typeData.get? ns with
    | none => simp [GoMap.get?, h]
    | some nd => simp [h]

theorem flushMetrics_eq (all : Snapshot) (m : Metrics) (ns : String)
    (hns : makeNamespace m.labelKeys m.labelVals = some ns) :
    flushMetrics all m = some (all.set m.type (((all.get? m.type).getD []).set ns
      (flushEachAll (all.namespaceData m.type ns) m.each))) := by
  simp [flushMetrics, hns, Snapshot.namespaceData]

theorem flushMetrics_isSome (all : Snapshot) (m : Metrics) (all' : Snapshot)
    (h : flushMetrics all m = some all') :
    ∃ ns, makeNamespace m.labelKeys m.labelVals = some ns := by
  cases hns : makeNamespace m.labelKeys m.labelVals with
  | none => simp [flushMetrics, hns] at h
  | some ns => exact ⟨ns, rfl⟩

/-- One round of the loop changes the mapping of the group's own type and
namespace, by the group's assignments, and no other mapping. -/
theorem namespaceData_flushMetrics (all all' : Snapshot) (m : Metrics)
    (h : flushMetrics all m = some all') (t ns : String) :
    all'.namespaceData t ns = applyWrites (all.namespaceData t ns)
      (if m.type = t ∧ makeNamespace m.labelKeys m.labelVals = some ns
        then groupWrites m else []) := by
  obtain ⟨ns₀, hns⟩ := flushMetrics_isSome all m all' h
  rw [flushMetrics_eq all m ns₀ hns] at h
  have h' := (Option.some.inj h).symm
  subst h'
  by_cases ht : m.type = t
  · by_cases hn : ns₀ = ns
    · subst ht; subst hn
      simp [Snapshot.namespaceData, GoMap.get?_set, hns, flushEachAll_eq_applyWrites, groupWrites]
    · simp [Snapshot.namespaceData, GoMap.get?_set, hns, ht, hn, applyWrites]
  · simp [Snapshot.namespaceData, GoMap.get?_set, ht, applyWrites]

theorem writesTo_cons (t ns : String) (m : Metrics) (ms : List Metrics) :
    writesTo t ns (m :: ms) =
      (if m.type = t ∧ makeNamespace m.labelKeys m.labelVals = some ns
        then groupWrites m else []) ++ writesTo t ns ms := by
  simp [writesTo, List.flatMap_cons]

theorem writesTo_append (t ns : String) (ms₁ ms₂ : List Metrics) :
    writesTo t ns (ms₁ ++ ms₂) = writesTo t ns ms₁ ++ writesTo t ns ms₂ := by
  simp [writesTo, List.flatMap_append]

/-- When the loop ends, every mapping is the one it was at the start with the
assignments of its groups carried out in processing order. -/
theorem namespaceData_flushLoop (ms : List Metrics) (all all' : Snapshot)
    (h : flushLoop all ms = some all') (t ns : String) :
    all'.namespaceData t ns = applyWrites (all.namespaceData t ns) (writesTo t ns ms) := by
  induction ms generalizing all with
  | nil =>
    simp only [flushLoop, Option.some.injEq] at h
    subst h
    rfl
  | cons m ms ih =>
    cases hm : flushMetrics all m with
    | none => simp [flushLoop, hm] at h
    | some all₁ =>
      simp only [flushLoop, hm] at h
      rw [ih all₁ h, namespaceData_flushMetrics all all₁ m hm, writesTo_cons, applyWrites_append]

theorem namespaceData_buildSnapshot (ms : List Metrics) (all : Snapshot)
    (h : buildSnapshot ms = some all) (t ns : String) :
    all.namespaceData t ns = applyWrites [] (writesTo t ns ms) := by
  have := namespaceData_flushLoop ms [] all h t ns
  simpa [Snapshot.namespaceData, GoMap.get?] using this

/-- The entry of a key in the snapshot is the value of the last assignment to
it among the groups of that type and namespace. -/
theorem lookup_of_last_write (ms : List Metrics) (all : Snapshot)
    (h : buildSnapshot ms = some all) (t ns k v : String)
    (pre post : List (String × String))
    (hw : writesTo t ns ms = pre ++ (k, v) :: post) (hlast : ∀ kv ∈ post, kv.1 ≠ k) :
    all.lookup t ns k = some v := by
  rw [lookup_eq_namespaceData, namespaceData_buildSnapshot ms all h, hw]
  exact get?_applyWrites_last [] pre post k v hlast

/-- A key that is assigned at all has a last assignment. -/
theorem exists_last_write (ws : List (String × String)) (k : String)
    (h : ∃ kv ∈ ws, kv.1 = k) :
    ∃ v pre post, ws = pre ++ (k, v) :: post ∧ ∀ kv' ∈ post, kv'.1 ≠ k := by
  induction ws with
  | nil => simp at h
  | cons a rest ih =>
    by_cases hr : ∃ kv' ∈ rest, kv'.1 = k
    · obtain ⟨v, pre, post, hsplit, hlast⟩ := ih hr
      exact ⟨v, a :: pre, post, by simp [hsplit], hlast⟩
    · obtain ⟨kv, hmem, hk⟩ := h
      rcases List.mem_cons.mp hmem with heq | hmem'
      · subst heq
        subst hk
        refine ⟨kv.2, [], rest, rfl, ?_⟩
        intro kv' hkv' hkey
        exact hr ⟨kv', hkv', hkey⟩
      · exact absurd ⟨kv, hmem', hk⟩ hr

theorem mem_writesTo (t ns : String) (ms : List Metrics) (kv : String × String) :
    kv ∈ writesTo t ns ms ↔
      ∃ m ∈ ms, m.type = t ∧ makeNamespace m.labelKeys m.labelVals = some ns ∧
        kv ∈ groupWrites m := by
  simp only [writesTo, List.mem_flatMap]
  constructor
  · rintro ⟨m, hm, hkv⟩
    by_cases hc : m.type = t ∧ makeNamespace m.labelKeys m.labelVals = some ns
    · rw [if_pos hc] at hkv
      exact ⟨m, hm, hc.1, hc.2, hkv⟩
    · rw [if_neg hc] at hkv
      simp at hkv
  · rintro ⟨m, hm, ht, hn, hkv⟩
    exact ⟨m, hm, by rw [if_pos ⟨ht, hn⟩]; exact hkv⟩

theorem groupWrites_split (m : Metrics) (e₁ e₂ : List (String × Metric)) (k : String)
    (i : Metric) (he : m.each = e₁ ++ (k, i) :: e₂) :
    groupWrites m = (e₁.flatMap fun km => metricWrites km.1 km.2) ++ metricWrites k i ++
      (e₂.flatMap fun km => metricWrites km.1 km.2) := by
  simp [groupWrites, he, List.flatMap_append, List.flatMap_cons]

/-- The entry of `k` when a group assigns `v` to it as the only assignment of
one of its sub-metrics and nothing processed later assigns to `k` in the same
type and namespace. -/
theorem lookup_of_single_write (ms : List Metrics) (all : Snapshot)
    (h : buildSnapshot ms = some all)
    (pre post : List Metrics) (m : Metrics) (hms : ms = pre ++ m :: post)
    (ns : String) (hns : makeNamespace m.labelKeys m.labelVals = some ns)
    (e₁ e₂ : List (String × Metric)) (k v : String) (i : Metric)
    (he : m.each = e₁ ++ (k, i) :: e₂) (hi : metricWrites k i = [(k, v)])
    (hlater : ∀ km ∈ e₂, ∀ kv ∈ metricWrites km.1 km.2, kv.1 ≠ k)
    (hpost : ∀ m' ∈ post, m'.type = m.type →
      makeNamespace m'.labelKeys m'.labelVals = some ns →
      ∀ kv ∈ groupWrites m', kv.1 ≠ k) :
    all.lookup m.type ns k = some v := by
  apply lookup_of_last_write ms all h m.type ns k v
    (writesTo m.type ns pre ++ (e₁.flatMap fun km => metricWrites km.1 km.2))
    ((e₂.flatMap fun km => metricWrites km.1 km.2) ++ writesTo m.type ns post)
  · rw [hms, writesTo_append, writesTo_cons, if_pos ⟨rfl, hns⟩, groupWrites_split m e₁ e₂ k i he,
      hi]
    simp [List.append_assoc]
  · intro kv hkv
    rcases List.mem_append.mp hkv with h₂ | h₂
    · obtain ⟨km, hkm, hmem⟩ := List.mem_flatMap.mp h₂
      exact hlater km hkm kv hmem
    · obtain ⟨m', hm', ht, hn, hmem⟩ := (mem_writesTo m.type ns post kv).mp h₂
      exact hpost m' hm' ht hn kv hmem

/-! ## makeNamespace on lists of equal length -/

theorem join_foldl (l : List String) (init : String) :
    List.foldl (fun r s => r ++ s) init l = init ++ List.foldl (fun r s => r ++ s) "" l := by
  induction l generalizing init with
  | nil => simp
  | cons a l ih =>
    rw [List.foldl_cons, ih, List.foldl_cons, ih ("" ++ a)]
    simp [String.append_assoc]

theorem join_cons (a : String) (l : List String) :
    String.join (a :: l) = a ++ String.join l := by
  unfold String.join
  rw [List.foldl_cons, join_foldl]
  simp

theorem makeNamespaceLoop_eq (keys vals : List String) (fuel i : Nat) (ns : String)
    (hfuel : i + fuel = vals.length) (hlen : vals.length ≤ keys.length) :
    makeNamespaceLoop keys vals fuel i ns =
      some (ns ++ String.join
        (List.zipWith (fun k v => k ++ "." ++ v) (keys.drop i) (vals.drop i))) := by
  induction fuel generalizing i ns with
  | zero =>
    have hi : vals.length ≤ i := by omega
    simp [makeNamespaceLoop, List.drop_of_length_le hi, String.join]
  | succ fuel ih =>
    have hv : i < vals.length := by omega
    have hk : i < keys.length := by omega
    rw [makeNamespaceLoop, List.getElem?_eq_getElem hk, List.getElem?_eq_getElem hv]
    simp only
    rw [ih (i + 1) _ (by omega), List.drop_eq_getElem_cons hk, List.drop_eq_getElem_cons hv,
      List.zipWith_cons_cons, join_cons]
    simp [String.append_assoc]

/-! ## Decimal numerals -/

theorem digitValue_digitChar (d : Nat) (h : d < 10) : digitValue (digitChar d) = d := by
  interval_cases d <;> rfl

theorem digitChar_ne_minus (d : Nat) (h : d < 10) : digitChar d ≠ '-' := by
  interval_cases d <;> decide

theorem decimalValue_append (cs : List Char) (c : Char) :
    decimalValue (cs ++ [c]) = 10 * decimalValue cs + digitValue c := by
  simp [decimalValue, List.foldl_append]

theorem decimalValue_decimalDigits (fuel n : Nat) (h : n < fuel) :
    decimalValue (decimalDigits fuel n) = n := by
  induction fuel generalizing n with
  | zero => omega
  | succ fuel ih =>
    unfold decimalDigits
    by_cases hn : n < 10
    · simp [hn, decimalValue, digitValue_digitChar n hn]
    · rw [if_neg hn, decimalValue_append, ih (n / 10) (by omega),
        digitValue_digitChar _ (Nat.mod_lt _ (by omega))]
      omega

theorem head?_decimalDigits (fuel n : Nat) (h : 0 < fuel) :
    ∃ d, d < 10 ∧ (decimalDigits fuel n).head? = some (digitChar d) := by
  induction fuel generalizing n with
  | zero => omega
  | succ fuel ih =>
    unfold decimalDigits
    by_cases hn : n < 10
    · exact ⟨n, hn, by simp [hn]⟩
    · rw [if_neg hn]
      cases fuel with
      | zero => exact ⟨n % 10, Nat.mod_lt _ (by omega), by simp [decimalDigits]⟩
      | succ fuel =>
        obtain ⟨d, hd, hh⟩ := ih (n / 10) (by omega)
        refine ⟨d, hd, ?_⟩
        cases hl : decimalDigits (fuel + 1) (n / 10) with
        | nil => simp [hl] at hh
        | cons a l => simpa [hl] using hh

/-- `FormatInt` writes the decimal numeral of its argument: read back, the
string gives the integer. -/
theorem parseInt_FormatInt (i : Int) : parseInt (FormatInt i) = i := by
  unfold FormatInt
  by_cases hi : i < 0
  · rw [if_pos hi]
    have hd : ("-" ++ formatNat i.natAbs).data = '-' :: decimalDigits (i.natAbs + 1) i.natAbs := by
      simp [formatNat, String.data_append]
    simp only [parseInt, hd, List.head?_cons, List.tail_cons, if_true,
      decimalValue_decimalDigits _ _ (Nat.lt_succ_self _)]
    omega
  · rw [if_neg hi]
    obtain ⟨d, hd, hh⟩ := head?_decimalDigits (i.natAbs + 1) i.natAbs (by omega)
    have hne : (formatNat i.natAbs).data.head? ≠ some '-' := by
      simp only [formatNat, hh]
      intro h
      exact digitChar_ne_minus d hd (Option.some.inj h)
    simp only [parseInt, if_neg hne]
    simp only [formatNat, decimalValue_decimalDigits _ _ (Nat.lt_succ_self _)]
    omega

/-! ## Strings -/

theorem append_left_cancel_iff (k a b : String) : k ++ a = k ++ b ↔ a = b := by
  constructor
  · intro h
    have h' := congrArg String.data h
    simp only [String.data_append] at h'
    exact String.ext (List.append_cancel_left h')
  · intro h
    rw [h]

theorem append_ne_self (k a : String) (ha : a ≠ "") : k ++ a ≠ k := by
  intro h
  have h' := congrArg String.data h
  simp only [String.data_append] at h'
  have : a.data = [] := by simpa using h'
  exact ha (String.ext this)

/-! ## Unsupported sub-metrics -/

theorem flushEachAll_append (nd : NamespaceData) (e₁ e₂ : List (String × Metric)) :
    flushEachAll nd (e₁ ++ e₂) = flushEachAll (flushEachAll nd e₁) e₂ := by
  simp [flushEachAll, List.foldl_append]

theorem flushEachAll_skip (nd : NamespaceData) (e₁ e₂ : List (String × Metric)) (k : String) :
    flushEachAll nd (e₁ ++ (k, Metric.unsupported) :: e₂) = flushEachAll nd (e₁ ++ e₂) := by
  rw [flushEachAll_append, flushEachAll_append]
  rfl

/-- The loop gives the same result on two inputs that differ in one group,
when one round of the loop cannot tell the two groups apart. -/
theorem flushLoop_congr (pre post : List Metrics) (m m' : Metrics)
    (h : ∀ all, flushMetrics all m = flushMetrics all m') (all : Snapshot) :
    flushLoop all (pre ++ m :: post) = flushLoop all (pre ++ m' :: post) := by
  induction pre generalizing all with
  | nil => simp [flushLoop, h]
  | cons a pre ih =>
    simp only [List.cons_append, flushLoop]
    cases flushMetrics all a with
    | none => rfl
    | some all₁ => exact ih all₁

theorem groupWrites_of_unsupported (m : Metrics)
    (h : ∀ km ∈ m.each, km.2.isUnsupported = true) : groupWrites m = [] := by
  unfold groupWrites
  rw [List.flatMap_eq_nil_iff]
  intro km hkm
  have := h km hkm
  cases hk : km.2 with
  | unsupported => rfl
  | counter c => simp [hk, Metric.isUnsupported] at this
  | gauge v => simp [hk, Metric.isUnsupported] at this
  | histogram hh => simp [hk, Metric.isUnsupported] at this

/-! ## Completion of the loop -/

theorem makeNamespace_isSome (keys vals : List String) (h : vals.length ≤ keys.length) :
    ∃ ns, makeNamespace keys vals = some ns :=
  ⟨_, makeNamespaceLoop_eq keys vals vals.length 0 "" (by omega) h⟩

theorem flushLoop_isSome (ms : List Metrics)
    (h : ∀ m ∈ ms, m.labelVals.length ≤ m.labelKeys.length) (all : Snapshot) :
    ∃ all', flushLoop all ms = some all' := by
  induction ms generalizing all with
  | nil => exact ⟨all, rfl⟩
  | cons m ms ih =>
    obtain ⟨ns, hns⟩ := makeNamespace_isSome m.labelKeys m.labelVals
      (h m (List.mem_cons_self _ _))
    have hm := flushMetrics_eq all m ns hns
    simp only [flushLoop, hm]
    exact ih (fun m' hm' => h m' (List.mem_cons_of_mem _ hm')) _

theorem write_self (ws : Writers) (w : Nat) (b : String) :
    (ws.write w b) w = ws w ++ [b] := by
  simp [Writers.write]

theorem write_other (ws : Writers) (w w' : Nat) (b : String) (h : w' ≠ w) :
    (ws.write w b) w' = ws w' := by
  simp [Writers.write, h]

theorem newWrites_write (sink : ConsoleSink) (ws : Writers) (b : String) :
    newWrites sink ws (ws.write sink.writer b) = [b] := by
  simp [newWrites, write_self]

theorem flush_newWrites (sink : ConsoleSink) (ws : Writers) (ms : List Metrics) :
    (Flush sink ws ms).map (fun r => newWrites sink ws r.2)
      = (buildSnapshot ms).map (fun all => [MarshalIndent all]) := by
  unfold Flush
  cases buildSnapshot ms with
  | none => rfl
  | some all => simp [newWrites_write]

/-! ## Namespace construction -/

/-- C1 (as stated, refuted): for the labels `["region","az"]` / `["us","1a"]`,
of equal length, the specification's concatenation without any inserted
character is `"regionusaz1a"`, while `makeNamespace` returns
`"region.usaz.1a"`: it puts a `.` between each key and its value. -/
theorem makeNamespace_no_separator_counterexample :
    ["region", "az"].length = ["us", "1a"].length ∧
    specNamespace ["region", "az"] ["us", "1a"] = "regionusaz1a" ∧
    makeNamespace ["region", "az"] ["us", "1a"] = some "region.usaz.1a" ∧
    makeNamespace ["region", "az"] ["us", "1a"]
      ≠ some (specNamespace ["region", "az"] ["us", "1a"]) := by
  decide

/-- C1 (amended): for label lists `keys` and `vals` of equal length,
`makeNamespace keys vals` returns the concatenation
`keys[0] ++ "." ++ vals[0] ++ keys[1] ++ "." ++ vals[1] ++ ...`: a `.` between
each key and its value, nothing between two pairs. -/
theorem makeNamespace_eq_join (keys vals : List String)
    (hlen : keys.length = vals.length) :
    makeNamespace keys vals =
      some (String.join (List.zipWith (fun k v => k ++ "." ++ v) keys vals)) := by
  have h := makeNamespaceLoop_eq keys vals vals.length 0 "" (by omega) (by omega)
  simpa [makeNamespace] using h

/-- Witness of C1 (amended) at `["region","az"]` / `["us","1a"]`. -/
theorem makeNamespace_eq_join_witness :
    ["region", "az"].length = ["us", "1a"].length ∧
    makeNamespace ["region", "az"] ["us", "1a"] =
      some (String.join
        (List.zipWith (fun k v => k ++ "." ++ v) ["region", "az"] ["us", "1a"])) :=
  ⟨rfl, makeNamespace_eq_join ["region", "az"] ["us", "1a"] rfl⟩

/-! ## Counters and gauges -/

/-- C2: when `Flush` builds the snapshot `all` from `ms`, a group `m` of `ms`
with namespace `ns` enumerates a counter of count `c` under `k`, and nothing
processed later (the rest of `m`, or a later group of the same type and
namespace) assigns to `k`, then `all[m.type][ns][k]` is the decimal string of
`c`; the count 5 gives `"5"`. -/
theorem counter_entry (ms : List Metrics) (all : Snapshot)
    (h : buildSnapshot ms = some all)
    (pre post : List Metrics) (m : Metrics) (hms : ms = pre ++ m :: post)
    (ns : String) (hns : makeNamespace m.labelKeys m.labelVals = some ns)
    (e₁ e₂ : List (String × Metric)) (k : String) (c : Int)
    (he : m.each = e₁ ++ (k, Metric.counter c) :: e₂)
    (hlater : ∀ km ∈ e₂, ∀ kv ∈ metricWrites km.1 km.2, kv.1 ≠ k)
    (hpost : ∀ m' ∈ post, m'.type = m.type →
      makeNamespace m'.labelKeys m'.labelVals = some ns →
      ∀ kv ∈ groupWrites m', kv.1 ≠ k) :
    all.lookup m.type ns k = some (FormatInt c) ∧ parseInt (FormatInt c) = c ∧
      FormatInt 5 = "5" :=
  ⟨lookup_of_single_write ms all h pre post m hms ns hns e₁ e₂ k (FormatInt c)
    (Metric.counter c) he rfl hlater hpost, parseInt_FormatInt c, by decide⟩

/-- Witness of C2: the counter `c` of `groupA` in `sampleGroups`. -/
theorem counter_entry_witness :
    buildSnapshot sampleGroups = some sampleSnapshot ∧
    makeNamespace groupA.labelKeys groupA.labelVals = some "region.usaz.1a" ∧
    (sampleSnapshot.lookup groupA.type "region.usaz.1a" "c" = some (FormatInt 5) ∧
      parseInt (FormatInt 5) = 5 ∧ FormatInt 5 = "5") :=
  ⟨rfl, by decide,
    counter_entry sampleGroups sampleSnapshot rfl [] [groupB, groupC] groupA rfl
      "region.usaz.1a" (by decide)
      [("a", Metric.counter 1)] [("u", Metric.unsupported), ("g", Metric.gauge (-3))] "c" 5 rfl
      (by
        intro km hkm kv hkv
        simp only [List.mem_cons, List.mem_singleton, List.not_mem_nil, or_false] at hkm
        rcases hkm with rfl | rfl
        · simp [metricWrites] at hkv
        · simp only [metricWrites, List.mem_singleton] at hkv
          subst hkv
          decide)
      (by
        intro m' hm' _ _ kv hkv
        simp only [List.mem_cons, List.mem_singleton, List.not_mem_nil, or_false] at hm'
        rcases hm' with rfl | rfl
        · simp only [groupWrites, groupB, List.flatMap_cons, List.flatMap_nil, metricWrites,
            List.cons_append, List.nil_append, List.mem_cons, List.not_mem_nil, or_false] at hkv
          rcases hkv with rfl | rfl <;> decide
        · simp only [groupWrites, groupC, List.flatMap_cons, List.flatMap_nil, metricWrites,
            List.cons_append, List.nil_append, List.mem_cons, List.not_mem_nil, or_false] at hkv
          subst hkv
          simp_all [groupA, groupC])⟩



/-- The assignments of `groupB`. -/
theorem groupWrites_groupB : groupWrites groupB = [("a", "7"), ("d", "2")] := by
  decide

/-- The assignments of `groupC`. -/
theorem groupWrites_groupC : groupWrites groupC = [("c", "9")] := by
  decide

/-- C3: when `Flush` builds the snapshot `all` from `ms`, a group `m` of `ms`
with namespace `ns` enumerates a gauge of value `v` under `k`, and nothing
processed later (the rest of `m`, or a later group of the same type and
namespace) assigns to `k`, then `all[m.type][ns][k]` is the decimal string of
`v`, with a leading minus sign when `v` is negative; the value -3 gives
`"-3"`. -/
theorem gauge_entry (ms : List Metrics) (all : Snapshot)
    (h : buildSnapshot ms = some all)
    (pre post : List Metrics) (m : Metrics) (hms : ms = pre ++ m :: post)
    (ns : String) (hns : makeNamespace m.labelKeys m.labelVals = some ns)
    (e₁ e₂ : List (String × Metric)) (k : String) (v : Int)
    (he : m.each = e₁ ++ (k, Metric.gauge v) :: e₂)
    (hlater : ∀ km ∈ e₂, ∀ kv ∈ metricWrites km.1 km.2, kv.1 ≠ k)
    (hpost : ∀ m' ∈ post, m'.type = m.type →
      makeNamespace m'.labelKeys m'.labelVals = some ns →
      ∀ kv ∈ groupWrites m', kv.1 ≠ k) :
    all.lookup m.type ns k = some (FormatInt v) ∧ parseInt (FormatInt v) = v ∧
      (v < 0 → FormatInt v = "-" ++ formatNat v.natAbs) ∧ FormatInt (-3) = "-3" :=
  ⟨lookup_of_single_write ms all h pre post m hms ns hns e₁ e₂ k (FormatInt v)
    (Metric.gauge v) he rfl hlater hpost, parseInt_FormatInt v,
    fun hv => by simp [FormatInt, hv], by decide⟩

/-- Witness of C3: the gauge `g` of `groupA` in `sampleGroups`. -/
theorem gauge_entry_witness :
    buildSnapshot sampleGroups = some sampleSnapshot ∧
    makeNamespace groupA.labelKeys groupA.labelVals = some "region.usaz.1a" ∧
    (sampleSnapshot.lookup groupA.type "region.usaz.1a" "g" = some (FormatInt (-3)) ∧
      parseInt (FormatInt (-3)) = -3 ∧
      ((-3 : Int) < 0 → FormatInt (-3) = "-" ++ formatNat (-3 : Int).natAbs) ∧
      FormatInt (-3) = "-3") :=
  ⟨rfl, by decide,
    gauge_entry sampleGroups sampleSnapshot rfl [] [groupB, groupC] groupA rfl
      "region.usaz.1a" (by decide)
      [("a", Metric.counter 1), ("c", Metric.counter 5), ("u", Metric.unsupported)] []
      "g" (-3) rfl
      (by intro km hkm; simp at hkm)
      (by
        intro m' hm' _ _ kv hkv
        simp only [List.mem_cons, List.mem_singleton, List.not_mem_nil, or_false] at hm'
        rcases hm' with rfl | rfl
        · rw [groupWrites_groupB] at hkv
          simp only [List.mem_cons, List.not_mem_nil, or_false] at hkv
          rcases hkv with rfl | rfl <;> decide
        · rw [groupWrites_groupC] at hkv
          simp only [List.mem_cons, List.not_mem_nil, or_false] at hkv
          subst hkv
          decide)⟩

/-! ## Merging of groups -/

/-- C4: when `Flush` builds the snapshot `all` from `ms`, the groups of type
`t` and namespace `ns` share the one mapping `all[t][ns]`: every key `k`
assigned by any of them is present in it, and its value is the one of the last
assignment to `k` in processing order among all assignments of these groups
(`writesTo t ns ms`), whichever group made it. -/
theorem merged_last_write_wins (ms : List Metrics) (all : Snapshot)
    (h : buildSnapshot ms = some all) (t ns : String)
    (m : Metrics) (hm : m ∈ ms) (ht : m.type = t)
    (hns : makeNamespace m.labelKeys m.labelVals = some ns)
    (k v₀ : String) (hkv : (k, v₀) ∈ groupWrites m) :
    (∃ v, all.lookup t ns k = some v) ∧
    (∀ v pre post, writesTo t ns ms = pre ++ (k, v) :: post →
      (∀ kv ∈ post, kv.1 ≠ k) → all.lookup t ns k = some v) := by
  have hmem : (k, v₀) ∈ writesTo t ns ms :=
    (mem_writesTo t ns ms (k, v₀)).mpr ⟨m, hm, ht, hns, hkv⟩
  obtain ⟨v, pre, post, hsplit, hlast⟩ :=
    exists_last_write (writesTo t ns ms) k ⟨(k, v₀), hmem, rfl⟩
  exact ⟨⟨v, lookup_of_last_write ms all h t ns k v pre post hsplit hlast⟩,
    fun v' pre' post' hsplit' hlast' =>
      lookup_of_last_write ms all h t ns k v' pre' post' hsplit' hlast'⟩

/-- Witness of C4: `groupA` assigns `"1"` to `a`, the later `groupB` of the
same type and namespace assigns `"7"`, which is the entry of `a`. -/
theorem merged_last_write_wins_witness :
    buildSnapshot sampleGroups = some sampleSnapshot ∧
    groupA ∈ sampleGroups ∧
    makeNamespace groupA.labelKeys groupA.labelVals = some "region.usaz.1a" ∧
    ("a", "1") ∈ groupWrites groupA ∧
    sampleSnapshot.lookup "t" "region.usaz.1a" "a" = some "7" ∧
    ((∃ v, sampleSnapshot.lookup "t" "region.usaz.1a" "a" = some v) ∧
      (∀ v pre post, writesTo "t" "region.usaz.1a" sampleGroups = pre ++ ("a", v) :: post →
        (∀ kv ∈ post, kv.1 ≠ "a") →
        sampleSnapshot.lookup "t" "region.usaz.1a" "a" = some v)) :=
  ⟨rfl, by simp [sampleGroups], by decide, by decide, by decide,
    merged_last_write_wins sampleGroups sampleSnapshot rfl "t" "region.usaz.1a" groupA
      (by simp [sampleGroups]) rfl (by decide) "a" "1" (by decide)⟩

/-! ## Histograms -/

/-- The callback, run on a histogram `h` enumerated under `k`, leaves every
one of the ten keys of `histogramKeys k` present in the mapping it is given and
changes no other key, in particular not the bare key `k`; the five percentile
keys are named after `percents[index] * 100` and hold the score `ps[index]`,
and `k.count`, `k.min`, `k.max` hold the decimal strings of the count, minimum
and maximum. -/
theorem flushEach_histogram (nd : NamespaceData) (k : String) (h : Histogram) :
    (∀ key ∈ histogramKeys k, ∃ v, (flushEach nd k (Metric.histogram h)).get? key = some v) ∧
    (∀ key, key ∉ histogramKeys k →
      (flushEach nd k (Metric.histogram h)).get? key = nd.get? key) ∧
    k ∉ histogramKeys k ∧
    (flushEach nd k (Metric.histogram h)).get? k = nd.get? k ∧
    percents.map (fun p => k ++ "." ++ FormatFloat (Float64.mul p (Float64.ofNat 100)) ++ "%")
      = (histogramKeys k).take 5 ∧
    (flushEach nd k (Metric.histogram h)).get? (k ++ ".50.00%")
      = some (FormatFloat ((h.Percentiles percents).getD 0 Float64.nan)) ∧
    (flushEach nd k (Metric.histogram h)).get? (k ++ ".75.00%")
      = some (FormatFloat ((h.Percentiles percents).getD 1 Float64.nan)) ∧
    (flushEach nd k (Metric.histogram h)).get? (k ++ ".95.00%")
      = some (FormatFloat ((h.Percentiles percents).getD 2 Float64.nan)) ∧
    (flushEach nd k (Metric.histogram h)).get? (k ++ ".99.00%")
      = some (FormatFloat ((h.Percentiles percents).getD 3 Float64.nan)) ∧
    (flushEach nd k (Metric.histogram h)).get? (k ++ ".99.90%")
      = some (FormatFloat ((h.Percentiles percents).getD 4 Float64.nan)) ∧
    (flushEach nd k (Metric.histogram h)).get? (k ++ ".count") = some (FormatInt h.count) ∧
    (flushEach nd k (Metric.histogram h)).get? (k ++ ".min") = some (FormatInt h.min) ∧
    (flushEach nd k (Metric.histogram h)).get? (k ++ ".max") = some (FormatInt h.max) := by
  have hbare : k ∉ histogramKeys k := by
    intro hk
    simp only [histogramKeys, List.mem_cons, List.not_mem_nil, or_false] at hk
    rcases hk with e | e | e | e | e | e | e | e | e | e <;>
      exact append_ne_self k _ (by decide) e.symm
  have hother : ∀ key, key ∉ histogramKeys k →
      (flushEach nd k (Metric.histogram h)).get? key = nd.get? key := by
    intro key hkey
    rw [flushEach_eq_applyWrites]
    apply get?_applyWrites_of_not_mem
    intro kv hkv heq
    apply hkey
    rw [← heq]
    simp only [metricWrites, List.mem_cons, List.not_mem_nil, or_false] at hkv
    rcases hkv with rfl | rfl | rfl | rfl | rfl | rfl | rfl | rfl | rfl | rfl <;>
      simp [histogramKeys]
  have hlabels : percents.map
      (fun p => k ++ "." ++ FormatFloat (Float64.mul p (Float64.ofNat 100)) ++ "%")
      = (histogramKeys k).take 5 := by
    have hl := percent_labels
    simp only [percents, List.map_cons, List.map_nil, List.cons.injEq, and_true] at hl
    obtain ⟨h0, h1, h2, h3, h4⟩ := hl
    simp only [percents, List.map_cons, List.map_nil, h0, h1, h2, h3, h4, histogramKeys,
      List.take_succ_cons, List.take_zero, String.append_assoc]
    rfl
  refine ⟨?_, hother, hbare, hother k hbare, hlabels, ?_, ?_, ?_, ?_, ?_, ?_, ?_, ?_⟩
  · intro key hkey
    rw [flushEach_eq_applyWrites]
    simp only [histogramKeys, List.mem_cons, List.not_mem_nil, or_false] at hkey
    rcases hkey with rfl | rfl | rfl | rfl | rfl | rfl | rfl | rfl | rfl | rfl <;>
      simp [applyWrites, metricWrites, GoMap.get?_set, append_left_cancel_iff]
  all_goals
    rw [flushEach_eq_applyWrites]
    simp [applyWrites, metricWrites, GoMap.get?_set, append_left_cancel_iff,
      Histogram.Percentiles, percents]

/-! ## The empty flush -/

/-- C6: `Flush` on the empty sequence builds the empty snapshot and hands the
writer of the sink the two characters `{}`, as one more byte slice. -/
theorem flush_empty (sink : ConsoleSink) (ws : Writers) :
    buildSnapshot [] = some [] ∧
    MarshalIndent [] = "\x7b\x7d" ∧
    "\x7b\x7d".data = ['\x7b', '\x7d'] ∧
    Flush sink ws [] = some (sink, ws.write sink.writer "\x7b\x7d") ∧
    (ws.write sink.writer "\x7b\x7d") sink.writer = ws sink.writer ++ ["\x7b\x7d"] :=
  ⟨rfl, by decide, rfl, rfl, write_self ws sink.writer "\x7b\x7d"⟩

/-! ## Unsupported kinds -/

/-- C7: a sub-metric of unsupported kind is passed over without effect and
without failure: the callback returns the mapping as it got it; the snapshot
that `Flush` builds (or its failing to build one) is the same as on the input
without that sub-metric; and a round of the loop on a group `m` whose
sub-metrics are all unsupported, with a namespace that can be computed,
completes and leaves the mapping of its type and namespace, like every entry
of the snapshot, as it was. -/
theorem unsupported_ignored (all : Snapshot) (m : Metrics) (ns : String)
    (hns : makeNamespace m.labelKeys m.labelVals = some ns)
    (hall : ∀ km ∈ m.each, km.2.isUnsupported = true) :
    (∀ (nd : NamespaceData) (k : String), flushEach nd k Metric.unsupported = nd) ∧
    (∀ (pre post : List Metrics) (g : Metrics) (e₁ e₂ : List (String × Metric)) (k : String),
      buildSnapshot (pre ++ { g with each := e₁ ++ (k, Metric.unsupported) :: e₂ } :: post)
        = buildSnapshot (pre ++ { g with each := e₁ ++ e₂ } :: post)) ∧
    ∃ all', flushMetrics all m = some all' ∧
      all'.namespaceData m.type ns = all.namespaceData m.type ns ∧
      (all'.namespaceData m.type ns).keys = (all.namespaceData m.type ns).keys ∧
      ∀ t ns' k, all'.lookup t ns' k = all.lookup t ns' k := by
  refine ⟨fun _ _ => rfl, ?_, ?_⟩
  · intro pre post g e₁ e₂ k
    apply flushLoop_congr
    intro all₀
    simp only [flushMetrics, flushEachAll_skip]
  · have hm := flushMetrics_eq all m ns hns
    refine ⟨_, hm, ?_⟩
    have hnd : ∀ t ns', Snapshot.namespaceData
        (all.set m.type (((all.get? m.type).getD []).set ns
          (flushEachAll (all.namespaceData m.type ns) m.each))) t ns'
        = all.namespaceData t ns' := by
      intro t ns'
      rw [namespaceData_flushMetrics all _ m hm t ns', groupWrites_of_unsupported m hall]
      simp [applyWrites]
    refine ⟨hnd _ _, by rw [hnd], ?_⟩
    intro t ns' k
    rw [lookup_eq_namespaceData, lookup_eq_namespaceData, hnd]

/-- Witness of C7: `groupU`, whose two sub-metrics are unsupported, processed
after `sampleGroups`. -/
theorem unsupported_ignored_witness :
    makeNamespace groupU.labelKeys groupU.labelVals = some "region.usaz.1a" ∧
    (∀ km ∈ groupU.each, km.2.isUnsupported = true) ∧
    flushMetrics sampleSnapshot groupU = some sampleSnapshot ∧
    ((∀ (nd : NamespaceData) (k : String), flushEach nd k Metric.unsupported = nd) ∧
    (∀ (pre post : List Metrics) (g : Metrics) (e₁ e₂ : List (String × Metric)) (k : String),
      buildSnapshot (pre ++ { g with each := e₁ ++ (k, Metric.unsupported) :: e₂ } :: post)
        = buildSnapshot (pre ++ { g with each := e₁ ++ e₂ } :: post)) ∧
    ∃ all', flushMetrics sampleSnapshot groupU = some all' ∧
      all'.namespaceData groupU.type "region.usaz.1a"
        = sampleSnapshot.namespaceData groupU.type "region.usaz.1a" ∧
      (all'.namespaceData groupU.type "region.usaz.1a").keys
        = (sampleSnapshot.namespaceData groupU.type "region.usaz.1a").keys ∧
      ∀ t ns' k, all'.lookup t ns' k = sampleSnapshot.lookup t ns' k) :=
  ⟨by decide, by simp [groupU, Metric.isUnsupported], rfl,
    unsupported_ignored sampleSnapshot groupU "region.usaz.1a" (by decide)
      (by simp [groupU, Metric.isUnsupported])⟩

/-! ## Flush and its writer -/

/-- C8: whatever `Flush` calls were made before (`earlier₁` on one run,
`earlier₂` on another, from any writers), a `Flush` of the same groups `ms`
adds the same byte slices to its writer on both runs; they are determined by
`ms` alone: the marshalled snapshot of `ms`, or nothing when the call panics. -/
theorem flush_output_stateless (sink₁ sink₂ : ConsoleSink) (ws₁ ws₂ : Writers)
    (earlier₁ earlier₂ : List (List Metrics))
    (s₁ s₂ : ConsoleSink) (w₁ w₂ : Writers)
    (_h₁ : flushSeq sink₁ ws₁ earlier₁ = some (s₁, w₁))
    (_h₂ : flushSeq sink₂ ws₂ earlier₂ = some (s₂, w₂))
    (ms : List Metrics) :
    (Flush s₁ w₁ ms).map (fun r => newWrites s₁ w₁ r.2)
      = (Flush s₂ w₂ ms).map (fun r => newWrites s₂ w₂ r.2) ∧
    (Flush s₁ w₁ ms).map (fun r => newWrites s₁ w₁ r.2)
      = (buildSnapshot ms).map (fun all => [MarshalIndent all]) := by
  rw [flush_newWrites, flush_newWrites]
  exact ⟨rfl, rfl⟩

/-- Witness of C8: a `Flush` of `[groupC]` after a `Flush` of `sampleGroups`,
and as the first call on a fresh writer. -/
theorem flush_output_stateless_witness :
    flushSeq (NewConsoleSink 0) noWrites [sampleGroups]
      = some (NewConsoleSink 0, noWrites.write 0 (MarshalIndent sampleSnapshot)) ∧
    flushSeq (NewConsoleSink 1) noWrites [] = some (NewConsoleSink 1, noWrites) ∧
    ((Flush (NewConsoleSink 0) (noWrites.write 0 (MarshalIndent sampleSnapshot)) [groupC]).map
        (fun r => newWrites (NewConsoleSink 0)
          (noWrites.write 0 (MarshalIndent sampleSnapshot)) r.2)
      = (Flush (NewConsoleSink 1) noWrites [groupC]).map
        (fun r => newWrites (NewConsoleSink 1) noWrites r.2) ∧
    (Flush (NewConsoleSink 0) (noWrites.write 0 (MarshalIndent sampleSnapshot)) [groupC]).map
        (fun r => newWrites (NewConsoleSink 0)
          (noWrites.write 0 (MarshalIndent sampleSnapshot)) r.2)
      = (buildSnapshot [groupC]).map (fun all => [MarshalIndent all])) :=
  ⟨rfl, rfl,
    flush_output_stateless (NewConsoleSink 0) (NewConsoleSink 1) noWrites noWrites
      [sampleGroups] [] (NewConsoleSink 0) (NewConsoleSink 1)
      (noWrites.write 0 (MarshalIndent sampleSnapshot)) noWrites rfl rfl [groupC]⟩

/-- C9 (as stated, refuted): on a group with one label value and no label
key, `makeNamespace` indexes past the end of `keys`; `Flush` panics, and the
writer has received nothing. -/
theorem flush_no_write_counterexample :
    makeNamespace groupBad.labelKeys groupBad.labelVals = none ∧
    buildSnapshot [groupBad] = none ∧
    (Flush (NewConsoleSink 0) noWrites [groupBad]).isNone = true := by
  refine ⟨by decide, rfl, rfl⟩

/-- C9 (amended): when no group of `ms` has more label values than label
keys (the empty sequence included), `Flush` builds the complete snapshot `all`
of `ms` and then hands the writer of the sink exactly one more byte slice, the
marshalled `all`; no other writer receives anything, and the sink, with its
`writer` field, is as before. -/
theorem flush_writes_once (sink : ConsoleSink) (ws : Writers) (ms : List Metrics)
    (hlabels : ∀ m ∈ ms, m.labelVals.length ≤ m.labelKeys.length) :
    ∃ all sink' ws', buildSnapshot ms = some all ∧
      Flush sink ws ms = some (sink', ws') ∧
      sink' = sink ∧ sink'.writer = sink.writer ∧
      ws' sink.writer = ws sink.writer ++ [MarshalIndent all] ∧
      newWrites sink ws ws' = [MarshalIndent all] ∧
      ∀ w, w ≠ sink.writer → ws' w = ws w := by
  obtain ⟨all, hall⟩ := flushLoop_isSome ms hlabels []
  refine ⟨all, sink, ws.write sink.writer (MarshalIndent all), hall, ?_, rfl, rfl,
    write_self _ _ _, newWrites_write _ _ _, fun w hw => write_other _ _ _ _ hw⟩
  have hall' : buildSnapshot ms = some all := hall
  simp [Flush, hall']

/-- Witness of C9 (amended): `Flush` of `sampleGroups` on a fresh writer. -/
theorem flush_writes_once_witness :
    (∀ m ∈ sampleGroups, m.labelVals.length ≤ m.labelKeys.length) ∧
    ∃ all sink' ws', buildSnapshot sampleGroups = some all ∧
      Flush (NewConsoleSink 0) noWrites sampleGroups = some (sink', ws') ∧
      sink' = NewConsoleSink 0 ∧ sink'.writer = (NewConsoleSink 0).writer ∧
      ws' (NewConsoleSink 0).writer = noWrites (NewConsoleSink 0).writer ++ [MarshalIndent all] ∧
      newWrites (NewConsoleSink 0) noWrites ws' = [MarshalIndent all] ∧
      ∀ w, w ≠ (NewConsoleSink 0).writer → ws' w = noWrites w :=
  ⟨by decide,
    flush_writes_once (NewConsoleSink 0) noWrites sampleGroups (by decide)⟩

/-! ## After an unsupported sub-metric -/

/-- C10 (as stated, refuted): `groupA` enumerates the gauge `g` after the
unsupported sub-metric `u`, and the snapshot holds `g`: the `return` of the
`default` case ends one call of the callback, not the enumeration. -/
theorem unsupported_does_not_stop_counterexample :
    groupA.each = [("a", Metric.counter 1), ("c", Metric.counter 5)] ++
      ("u", Metric.unsupported) :: [("g", Metric.gauge (-3))] ∧
    buildSnapshot [groupA]
      = some [("t", [("region.usaz.1a", [("a", "1"), ("c", "5"), ("g", "-3")])])] ∧
    Snapshot.lookup [("t", [("region.usaz.1a", [("a", "1"), ("c", "5"), ("g", "-3")])])]
      "t" "region.usaz.1a" "g" = some "-3" := by
  refine ⟨rfl, rfl, by decide⟩

/-- C10 (amended): when the enumeration of a group reaches a sub-metric of
unsupported kind, only that sub-metric is passed over: the sub-metrics after
it are processed, on the mapping the sub-metrics before it have left, exactly
as if the unsupported one were not there. -/
theorem unsupported_does_not_stop (nd : NamespaceData) (e₁ e₂ : List (String × Metric))
    (k : String) :
    flushEachAll nd (e₁ ++ (k, Metric.unsupported) :: e₂)
      = flushEachAll (flushEachAll nd e₁) e₂ ∧
    flushEachAll nd (e₁ ++ (k, Metric.unsupported) :: e₂) = flushEachAll nd (e₁ ++ e₂) :=
  ⟨by rw [flushEachAll_skip, flushEachAll_append], flushEachAll_skip nd e₁ e₂ k⟩

/-! ## Label lists of different lengths -/

/-- With more values than keys the loop reaches an index past the end of
`keys`. -/
theorem makeNamespaceLoop_eq_none (keys vals : List String) (fuel i : Nat) (ns : String)
    (hfuel : i + fuel = vals.length) (hi : i ≤ keys.length)
    (hlen : keys.length < vals.length) :
    makeNamespaceLoop keys vals fuel i ns = none := by
  induction fuel generalizing i ns with
  | zero => omega
  | succ fuel ih =>
    have hv : i < vals.length := by omega
    by_cases hk : i < keys.length
    · rw [makeNamespaceLoop, List.getElem?_eq_getElem hk, List.getElem?_eq_getElem hv]
      exact ih (i + 1) _ (by omega) (by omega)
    · have hnone : keys[i]? = none := List.getElem?_eq_none (by omega)
      rw [makeNamespaceLoop, hnone]

theorem makeNamespace_eq_none (keys vals : List String) (hlen : keys.length < vals.length) :
    makeNamespace keys vals = none :=
  makeNamespaceLoop_eq_none keys vals vals.length 0 "" (by omega) (by omega) hlen

/-- Pairing stops at the end of the shorter list: keys beyond the number of
values play no part. -/
theorem zipWith_take_left (f : String → String → String) (keys vals : List String) :
    List.zipWith f (keys.take vals.length) vals = List.zipWith f keys vals := by
  induction keys generalizing vals with
  | nil => simp
  | cons k keys ih =>
    cases vals with
    | nil => simp
    | cons v vals => simp [ih]

theorem makeNamespace_eq_some (keys vals : List String) (hlen : vals.length ≤ keys.length) :
    makeNamespace keys vals =
      some (String.join (List.zipWith (fun k v => k ++ "." ++ v) (keys.take vals.length) vals)) := by
  have h := makeNamespaceLoop_eq keys vals vals.length 0 "" (by omega) hlen
  rw [zipWith_take_left]
  simpa [makeNamespace] using h

/-- C11 (as stated, refuted): the lists `["a","b"]` and `["x"]` differ in
length, and `makeNamespace` returns a namespace, `"a.x"`, made from the
truncated key list. -/
theorem makeNamespace_surplus_keys_counterexample :
    ["a", "b"].length ≠ ["x"].length ∧
    makeNamespace ["a", "b"] ["x"] = some "a.x" ∧
    makeNamespace ["a", "b"] ["x"] ≠ none := by
  decide

/-- C11 (amended): for label lists of different lengths, `makeNamespace`
fails with an index out of range, returning no namespace, when `vals` is the
longer list; when `keys` is the longer list it fails not, and returns the
namespace of `vals` and the first `len(vals)` keys. -/
theorem makeNamespace_lengths_differ (keys vals : List String)
    (hne : keys.length ≠ vals.length) :
    (keys.length < vals.length → makeNamespace keys vals = none) ∧
    (vals.length < keys.length →
      makeNamespace keys vals = some (String.join
        (List.zipWith (fun k v => k ++ "." ++ v) (keys.take vals.length) vals))) ∧
    (makeNamespace keys vals = none ∨ vals.length < keys.length) := by
  refine ⟨makeNamespace_eq_none keys vals,
    fun h => makeNamespace_eq_some keys vals (by omega), ?_⟩
  rcases Nat.lt_or_gt_of_ne hne with h | h
  · exact Or.inl (makeNamespace_eq_none keys vals h)
  · exact Or.inr h

/-- Witness of C11 (amended): no key and one value. -/
theorem makeNamespace_lengths_differ_witness :
    ([] : List String).length ≠ ["v"].length ∧
    makeNamespace [] ["v"] = none ∧
    ((([] : List String).length < ["v"].length → makeNamespace [] ["v"] = none) ∧
    (["v"].length < ([] : List String).length →
      makeNamespace [] ["v"] = some (String.join
        (List.zipWith (fun k v => k ++ "." ++ v) (([] : List String).take ["v"].length) ["v"]))) ∧
    (makeNamespace [] ["v"] = none ∨ ["v"].length < ([] : List String).length)) :=
  ⟨by decide, by decide, makeNamespace_lengths_differ [] ["v"] (by decide)⟩

/-! ## Collisions of namespaces -/

/-- C12: `makeNamespace` is not injective on label sets with as many keys as
values: the label `a.b` = `c` and the label `a` = `b.c` both give `a.b.c`; and
two groups of one type with these labels, `groupP` and `groupQ`, end in one
namespace mapping of the snapshot. -/
theorem makeNamespace_not_injective :
    (∃ keys vals keys' vals' : List String,
      keys.length = vals.length ∧ keys'.length = vals'.length ∧
      (keys, vals) ≠ (keys', vals') ∧
      ∃ ns, makeNamespace keys vals = some ns ∧ makeNamespace keys' vals' = some ns) ∧
    groupP.type = groupQ.type ∧
    (groupP.labelKeys, groupP.labelVals) ≠ (groupQ.labelKeys, groupQ.labelVals) ∧
    makeNamespace groupP.labelKeys groupP.labelVals = some "a.b.c" ∧
    makeNamespace groupQ.labelKeys groupQ.labelVals = some "a.b.c" ∧
    buildSnapshot [groupP, groupQ] = some [("t", [("a.b.c", [("x", "1"), ("y", "2")])])] := by
  refine ⟨⟨["a.b"], ["c"], ["a"], ["b.c"], rfl, rfl, by decide, "a.b.c", by decide, by decide⟩,
    rfl, by decide, by decide, by decide, rfl⟩

/-! ## The range of makeNamespace -/

/-- C14: `makeNamespace` fails, with an index out of range, exactly when
there are more values than keys; otherwise it returns the concatenation of
`keys[i] ++ "." ++ vals[i]` over the values and the first `len(vals)` keys, so
that keys beyond these change nothing; on two empty lists it returns the
empty string. -/
theorem makeNamespace_range (keys vals : List String) :
    (makeNamespace keys vals = none ↔ keys.length < vals.length) ∧
    makeNamespace keys vals =
      (if keys.length < vals.length then none
        else some (String.join
          (List.zipWith (fun k v => k ++ "." ++ v) (keys.take vals.length) vals))) ∧
    (∀ surplus : List String, vals.length ≤ keys.length →
      makeNamespace (keys ++ surplus) vals = makeNamespace keys vals) ∧
    makeNamespace [] [] = some "" := by
  have hchar : makeNamespace keys vals =
      (if keys.length < vals.length then none
        else some (String.join
          (List.zipWith (fun k v => k ++ "." ++ v) (keys.take vals.length) vals))) := by
    by_cases h : keys.length < vals.length
    · rw [if_pos h, makeNamespace_eq_none keys vals h]
    · rw [if_neg h, makeNamespace_eq_some keys vals (by omega)]
  refine ⟨?_, hchar, ?_, by decide⟩
  · rw [hchar]
    by_cases h : keys.length < vals.length <;> simp [h]
  · intro surplus hlen
    rw [makeNamespace_eq_some keys vals hlen,
      makeNamespace_eq_some (keys ++ surplus) vals (by simp; omega),
      List.take_append_of_le_length hlen]

/-! ## The types and namespaces of the snapshot -/

theorem GoMap.mem_keys_iff {V : Type} (m : GoMap V) (k : String) :
    k ∈ m.keys ↔ ∃ v, m.get? k = some v := by
  induction m with
  | nil => simp [GoMap.keys, GoMap.get?]
  | cons e rest ih =>
    obtain ⟨k₀, v₀⟩ := e
    have ih' : k ∈ List.map Prod.fst rest ↔ ∃ v, GoMap.get? rest k = some v := ih
    by_cases h : k₀ = k
    · subst h
      simp [GoMap.keys, GoMap.get?]
    · have h' : ¬ k = k₀ := fun e => h e.symm
      simp only [GoMap.keys, List.map_cons, List.mem_cons, GoMap.get?, h, h', if_false,
        false_or]
      exact ih'

theorem GoMap.mem_keys_set {V : Type} (m : GoMap V) (k k' : String) (v : V) :
    k' ∈ (m.set k v).keys ↔ k = k' ∨ k' ∈ m.keys := by
  rw [GoMap.mem_keys_iff, GoMap.mem_keys_iff, GoMap.get?_set]
  by_cases h : k = k'
  · simp [h]
  · simp [h]

theorem hasNamespace_getD (all : Snapshot) (t ns : String) :
    all.hasNamespace t ns ↔ ns ∈ GoMap.keys ((all.get? t).getD []) := by
  unfold Snapshot.hasNamespace
  cases all.get? t with
  | none => simp [GoMap.keys]
  | some typeData => simp

/-- One round of the loop adds the type of its group to the snapshot, and
nothing else. -/
theorem mem_keys_flushMetrics (all all' : Snapshot) (m : Metrics)
    (h : flushMetrics all m = some all') (t : String) :
    t ∈ all'.keys ↔ m.type = t ∨ t ∈ all.keys := by
  obtain ⟨ns₀, hns⟩ := flushMetrics_isSome all m all' h
  rw [flushMetrics_eq all m ns₀ hns] at h
  have h' := (Option.some.inj h).symm
  subst h'
  exact GoMap.mem_keys_set _ _ _ _

/-- One round of the loop adds the namespace of its group under the type of
its group, and nothing else. -/
theorem hasNamespace_flushMetrics (all all' : Snapshot) (m : Metrics)
    (h : flushMetrics all m = some all') (t ns : String) :
    all'.hasNamespace t ns ↔
      (m.type = t ∧ makeNamespace m.labelKeys m.labelVals = some ns) ∨
        all.hasNamespace t ns := by
  obtain ⟨ns₀, hns⟩ := flushMetrics_isSome all m all' h
  rw [flushMetrics_eq all m ns₀ hns] at h
  have h' := (Option.some.inj h).symm
  subst h'
  rw [hasNamespace_getD, hasNamespace_getD, GoMap.get?_set, hns]
  by_cases ht : m.type = t
  · subst ht
    simp [GoMap.mem_keys_set]
  · simp [ht]

/-- The types and namespaces of the snapshot when the loop ends: those it had
at the start and those of the groups. -/
theorem keys_flushLoop (ms : List Metrics) (all all' : Snapshot)
    (h : flushLoop all ms = some all') (t ns : String) :
    (t ∈ all'.keys ↔ t ∈ all.keys ∨ ∃ m ∈ ms, m.type = t) ∧
    (all'.hasNamespace t ns ↔ all.hasNamespace t ns ∨
      ∃ m ∈ ms, m.type = t ∧ makeNamespace m.labelKeys m.labelVals = some ns) := by
  induction ms generalizing all with
  | nil =>
    simp only [flushLoop, Option.some.injEq] at h
    subst h
    simp
  | cons m ms ih =>
    cases hm : flushMetrics all m with
    | none => simp [flushLoop, hm] at h
    | some all₁ =>
      simp only [flushLoop, hm] at h
      obtain ⟨ih₁, ih₂⟩ := ih all₁ h
      have key : ∀ A B E : Prop, ((A ∨ B) ∨ E ↔ B ∨ (A ∨ E)) := by
        intro A B E
        tauto
      rw [ih₁, ih₂, mem_keys_flushMetrics all all₁ m hm, hasNamespace_flushMetrics all all₁ m hm]
      constructor
      · simp only [List.mem_cons, exists_eq_or_imp]
        exact key _ _ _
      · simp only [List.mem_cons, exists_eq_or_imp]
        exact key _ _ _

/-- When the loop ends, the namespace of every group could be computed. -/
theorem namespaces_of_flushLoop (ms : List Metrics) (all all' : Snapshot)
    (h : flushLoop all ms = some all') (m : Metrics) (hm : m ∈ ms) :
    ∃ ns, makeNamespace m.labelKeys m.labelVals = some ns := by
  induction ms generalizing all with
  | nil => simp at hm
  | cons m₀ ms ih =>
    cases h₀ : flushMetrics all m₀ with
    | none => simp [flushLoop, h₀] at h
    | some all₁ =>
      simp only [flushLoop, h₀] at h
      rcases List.mem_cons.mp hm with rfl | hm'
      · exact flushMetrics_isSome all m all₁ h₀
      · exact ih all₁ h hm'

/-- C13: when `Flush` builds the snapshot `all` from `ms`, the types in `all`
are exactly the types of the groups of `ms`, and the namespaces under a type
`t` are exactly the namespaces of the groups of type `t`. Every group has its
entry `all[type][namespace]`, whatever it enumerates: the mapping made of the
assignments of the groups of that type and namespace, which is the empty
mapping when none of them assigns anything, as is the case of groups without
sub-metrics or with unsupported ones only. -/
theorem snapshot_types_and_namespaces (ms : List Metrics) (all : Snapshot)
    (h : buildSnapshot ms = some all) :
    (∀ t, t ∈ GoMap.keys all ↔ ∃ m ∈ ms, m.type = t) ∧
    (∀ t ns, (∃ typeData, GoMap.get? all t = some typeData ∧ ns ∈ typeData.keys) ↔
      ∃ m ∈ ms, m.type = t ∧ makeNamespace m.labelKeys m.labelVals = some ns) ∧
    (∀ m ∈ ms, ∃ ns typeData nd,
      makeNamespace m.labelKeys m.labelVals = some ns ∧
      GoMap.get? all m.type = some typeData ∧ typeData.get? ns = some nd ∧
      nd = applyWrites [] (writesTo m.type ns ms) ∧
      ((∀ m' ∈ ms, m'.type = m.type →
          makeNamespace m'.labelKeys m'.labelVals = some ns → groupWrites m' = []) →
        nd = [])) ∧
    (∀ m : Metrics, (m.each = [] ∨ ∀ km ∈ m.each, km.2.isUnsupported = true) →
      groupWrites m = []) := by
  have hkeys := keys_flushLoop ms [] all h
  have hmem : ∀ t ns, (∃ typeData, GoMap.get? all t = some typeData ∧ ns ∈ typeData.keys) ↔
      ∃ m ∈ ms, m.type = t ∧ makeNamespace m.labelKeys m.labelVals = some ns := by
    intro t ns
    have h₂ := (hkeys t ns).2
    have hempty : ¬ Snapshot.hasNamespace [] t ns := by
      simp [Snapshot.hasNamespace, GoMap.get?]
    rw [or_iff_right hempty] at h₂
    exact h₂
  refine ⟨?_, hmem, ?_, ?_⟩
  · intro t
    have h₁ := (hkeys t "").1
    simpa [GoMap.keys] using h₁
  · intro m hm
    obtain ⟨ns, hns⟩ := namespaces_of_flushLoop ms [] all h m hm
    obtain ⟨typeData, htd, hnsmem⟩ := (hmem m.type ns).mpr ⟨m, hm, rfl, hns⟩
    obtain ⟨nd, hnd⟩ := (GoMap.mem_keys_iff typeData ns).mp hnsmem
    have hdata : all.namespaceData m.type ns = nd := by
      simp [Snapshot.namespaceData, htd, hnd]
    have hnd' : nd = applyWrites [] (writesTo m.type ns ms) := by
      rw [← hdata]
      exact namespaceData_buildSnapshot ms all h m.type ns
    refine ⟨ns, typeData, nd, hns, htd, hnd, hnd', ?_⟩
    intro hnone
    have hw : writesTo m.type ns ms = [] := by
      unfold writesTo
      rw [List.flatMap_eq_nil_iff]
      intro m' hm'
      by_cases hc : m'.type = m.type ∧ makeNamespace m'.labelKeys m'.labelVals = some ns
      · rw [if_pos hc]
        exact hnone m' hm' hc.1 hc.2
      · rw [if_neg hc]
    rw [hnd', hw]
    rfl
  · intro m hm
    rcases hm with hm | hm
    · simp [groupWrites, hm]
    · exact groupWrites_of_unsupported m hm

/-- Witness of C13: `groupC`, then `groupU`, whose sub-metrics are all
unsupported and whose namespace holds the empty mapping. -/
theorem snapshot_types_and_namespaces_witness :
    buildSnapshot [groupC, groupU] = some sampleSnapshotU ∧
    GoMap.get? sampleSnapshotU "t" = some [("region.usaz.1a", [])] ∧
    (
    (∀ t, t ∈ GoMap.keys sampleSnapshotU ↔ ∃ m ∈ [groupC, groupU], m.type = t) ∧
    (∀ t ns, (∃ typeData, GoMap.get? sampleSnapshotU t = some typeData ∧ ns ∈ typeData.keys) ↔
      ∃ m ∈ [groupC, groupU], m.type = t ∧ makeNamespace m.labelKeys m.labelVals = some ns) ∧
    (∀ m ∈ [groupC, groupU], ∃ ns typeData nd,
      makeNamespace m.labelKeys m.labelVals = some ns ∧
      GoMap.get? sampleSnapshotU m.type = some typeData ∧ typeData.get? ns = some nd ∧
      nd = applyWrites [] (writesTo m.type ns [groupC, groupU]) ∧
      ((∀ m' ∈ [groupC, groupU], m'.type = m.type →
          makeNamespace m'.labelKeys m'.labelVals = some ns → groupWrites m' = []) →
        nd = [])) ∧
    (∀ m : Metrics, (m.each = [] ∨ ∀ km ∈ m.each, km.2.isUnsupported = true) →
      groupWrites m = [])) :=
  ⟨rfl, rfl, snapshot_types_and_namespaces [groupC, groupU] sampleSnapshotU rfl⟩

/-! ## A sub-metric and the rest of the flush -/

theorem get?_applyWrites_congr (ws : List (String × String)) (nd₁ nd₂ : NamespaceData)
    (key : String) (h : nd₁.get? key = nd₂.get? key) :
    (applyWrites nd₁ ws).get? key = (applyWrites nd₂ ws).get? key := by
  induction ws generalizing nd₁ nd₂ with
  | nil => exact h
  | cons kv rest ih =>
    show (applyWrites (nd₁.set kv.1 kv.2) rest).get? key
      = (applyWrites (nd₂.set kv.1 kv.2) rest).get? key
    apply ih
    rw [GoMap.get?_set, GoMap.get?_set, h]

/-- Assignments to other keys, anywhere in the sequence, do not change the
entry of `key`. -/
theorem get?_applyWrites_without (nd : NamespaceData) (x w y : List (String × String))
    (key : String) (hw : ∀ kv ∈ w, kv.1 ≠ key) :
    (applyWrites nd (x ++ w ++ y)).get? key = (applyWrites nd (x ++ y)).get? key := by
  rw [applyWrites_append, applyWrites_append, applyWrites_append]
  apply get?_applyWrites_congr
  exact get?_applyWrites_of_not_mem w _ key hw

theorem flushLoop_isSome_of_namespaces (ms : List Metrics)
    (h : ∀ m ∈ ms, ∃ ns, makeNamespace m.labelKeys m.labelVals = some ns) (all : Snapshot) :
    ∃ all', flushLoop all ms = some all' := by
  induction ms generalizing all with
  | nil => exact ⟨all, rfl⟩
  | cons m ms ih =>
    obtain ⟨ns, hns⟩ := h m (List.mem_cons_self _ _)
    have hm := flushMetrics_eq all m ns hns
    simp only [flushLoop, hm]
    exact ih (fun m' hm' => h m' (List.mem_cons_of_mem _ hm')) _

theorem writesTo_split (t ns : String) (pre post : List Metrics) (m : Metrics) :
    writesTo t ns (pre ++ m :: post) = writesTo t ns pre ++
      (if m.type = t ∧ makeNamespace m.labelKeys m.labelVals = some ns
        then groupWrites m else []) ++ writesTo t ns post := by
  rw [writesTo_append, writesTo_cons, List.append_assoc]

/-- The entry of `key` when a sub-metric of a group assigns `v` to it, no
later assignment of that sub-metric is to `key`, and nothing processed later
assigns to `key` in the same type and namespace. -/
theorem lookup_of_write (ms : List Metrics) (all : Snapshot)
    (h : buildSnapshot ms = some all)
    (pre post : List Metrics) (m : Metrics) (hms : ms = pre ++ m :: post)
    (ns : String) (hns : makeNamespace m.labelKeys m.labelVals = some ns)
    (e₁ e₂ : List (String × Metric)) (k : String) (i : Metric)
    (he : m.each = e₁ ++ (k, i) :: e₂)
    (w₁ w₂ : List (String × String)) (key v : String)
    (hw : metricWrites k i = w₁ ++ (key, v) :: w₂) (hw₂ : ∀ kv ∈ w₂, kv.1 ≠ key)
    (hl : noLaterWrite e₂ post m.type ns key) :
    all.lookup m.type ns key = some v := by
  apply lookup_of_last_write ms all h m.type ns key v
    (writesTo m.type ns pre ++ (e₁.flatMap fun km => metricWrites km.1 km.2) ++ w₁)
    (w₂ ++ (e₂.flatMap fun km => metricWrites km.1 km.2) ++ writesTo m.type ns post)
  · rw [hms, writesTo_split, if_pos ⟨rfl, hns⟩, groupWrites_split m e₁ e₂ k i he, hw]
    simp [List.append_assoc]
  · intro kv hkv
    rcases List.mem_append.mp hkv with h₂ | h₂
    · rcases List.mem_append.mp h₂ with h₃ | h₃
      · exact hw₂ kv h₃
      · obtain ⟨km, hkm, hmem⟩ := List.mem_flatMap.mp h₃
        exact hl.1 km hkm kv hmem
    · obtain ⟨m', hm', ht, hn, hmem⟩ := (mem_writesTo m.type ns post kv).mp h₂
      exact hl.2 m' hm' ht hn kv hmem

/-- An entry that a sub-metric does not assign to is the same in the snapshot
of the input and in the snapshot of the input without that sub-metric. -/
theorem lookup_without_metric (pre post : List Metrics) (m : Metrics)
    (e₁ e₂ : List (String × Metric)) (k : String) (i : Metric)
    (he : m.each = e₁ ++ (k, i) :: e₂) (all all₀ : Snapshot)
    (h : buildSnapshot (pre ++ m :: post) = some all)
    (h₀ : buildSnapshot (pre ++ { m with each := e₁ ++ e₂ } :: post) = some all₀)
    (t ns key : String)
    (hkey : m.type = t → makeNamespace m.labelKeys m.labelVals = some ns →
      ∀ kv ∈ metricWrites k i, kv.1 ≠ key) :
    all.lookup t ns key = all₀.lookup t ns key := by
  rw [lookup_eq_namespaceData, lookup_eq_namespaceData,
    namespaceData_buildSnapshot _ all h, namespaceData_buildSnapshot _ all₀ h₀,
    writesTo_split, writesTo_split]
  by_cases hc : m.type = t ∧ makeNamespace m.labelKeys m.labelVals = some ns
  · have hc₀ : ({ m with each := e₁ ++ e₂ } : Metrics).type = t ∧
        makeNamespace ({ m with each := e₁ ++ e₂ } : Metrics).labelKeys
          ({ m with each := e₁ ++ e₂ } : Metrics).labelVals = some ns := hc
    rw [if_pos hc, if_pos hc₀, groupWrites_split m e₁ e₂ k i he]
    have hg₀ : groupWrites ({ m with each := e₁ ++ e₂ } : Metrics)
        = (e₁.flatMap fun km => metricWrites km.1 km.2) ++
          (e₂.flatMap fun km => metricWrites km.1 km.2) := by
      simp [groupWrites, List.flatMap_append]
    rw [hg₀]
    have := get?_applyWrites_without []
      (writesTo t ns pre ++ (e₁.flatMap fun km => metricWrites km.1 km.2))
      (metricWrites k i)
      ((e₂.flatMap fun km => metricWrites km.1 km.2) ++ writesTo t ns post)
      key (hkey hc.1 hc.2)
    simpa [List.append_assoc] using this
  · have hc₀ : ¬ (({ m with each := e₁ ++ e₂ } : Metrics).type = t ∧
        makeNamespace ({ m with each := e₁ ++ e₂ } : Metrics).labelKeys
          ({ m with each := e₁ ++ e₂ } : Metrics).labelVals = some ns) := hc
    rw [if_neg hc, if_neg hc₀]

/-- The input without one sub-metric of one group is flushed to the end when
the input is. -/
theorem buildSnapshot_without_metric (pre post : List Metrics) (m : Metrics)
    (e : List (String × Metric)) (all : Snapshot)
    (h : buildSnapshot (pre ++ m :: post) = some all) :
    ∃ all₀, buildSnapshot (pre ++ { m with each := e } :: post) = some all₀ := by
  apply flushLoop_isSome_of_namespaces
  intro m' hm'
  rcases List.mem_append.mp hm' with hp | hp
  · exact namespaces_of_flushLoop _ [] all h m' (List.mem_append_left _ hp)
  · rcases List.mem_cons.mp hp with rfl | hp'
    · exact namespaces_of_flushLoop _ [] all h m
        (List.mem_append_right _ (List.mem_cons_self _ _))
    · exact namespaces_of_flushLoop _ [] all h m'
        (List.mem_append_right _ (List.mem_cons_of_mem _ hp'))

/-- Every key a group assigns to is present in the mapping of its type and
namespace. -/
theorem lookup_isSome_of_write (ms : List Metrics) (all : Snapshot)
    (h : buildSnapshot ms = some all) (m : Metrics) (hm : m ∈ ms) (ns : String)
    (hns : makeNamespace m.labelKeys m.labelVals = some ns)
    (kv : String × String) (hkv : kv ∈ groupWrites m) :
    ∃ v, all.lookup m.type ns kv.1 = some v := by
  have hmem : kv ∈ writesTo m.type ns ms :=
    (mem_writesTo m.type ns ms kv).mpr ⟨m, hm, rfl, hns, hkv⟩
  obtain ⟨v, w₁, w₂, hsplit, hlast⟩ :=
    exists_last_write (writesTo m.type ns ms) kv.1 ⟨kv, hmem, rfl⟩
  exact ⟨v, lookup_of_last_write ms all h m.type ns kv.1 v w₁ w₂ hsplit hlast⟩

theorem histogramKeys_eq (k : String) (hst : Histogram) :
    (metricWrites k (Metric.histogram hst)).map Prod.fst = histogramKeys k := rfl

theorem not_mem_histogramKeys_self (k : String) : k ∉ histogramKeys k := by
  intro hk
  simp only [histogramKeys, List.mem_cons, List.not_mem_nil, or_false] at hk
  rcases hk with e | e | e | e | e | e | e | e | e | e <;>
    exact append_ne_self k _ (by decide) e.symm

/-! ## Histograms in the snapshot -/

/-- C5: when `Flush` builds the snapshot `all` from `ms` and a group `m` of
`ms`, of namespace `ns`, enumerates a histogram `hst` under `k`, the ten keys
`k.50.00%`, `k.75.00%`, `k.95.00%`, `k.99.00%`, `k.99.90%`, `k.count`,
`k.min`, `k.max`, `k.mean`, `k.stddev` are all present in `all[m.type][ns]`.
They are all the histogram stores: the input without the histogram is flushed
to a snapshot `all₀` that agrees with `all` on every entry but these ten, the
bare key `k`, which is none of the ten, included. The five percentile keys are
named after `percents[index] * 100`, and each of the ten keys that nothing
processed later assigns to holds the value of the histogram: the score
`ps[index]` of its quantile, and for `k.count`, `k.min`, `k.max` the decimal
strings of the count, minimum and maximum. -/
theorem histogram_entries (ms : List Metrics) (all : Snapshot)
    (h : buildSnapshot ms = some all)
    (pre post : List Metrics) (m : Metrics) (hms : ms = pre ++ m :: post)
    (ns : String) (hns : makeNamespace m.labelKeys m.labelVals = some ns)
    (e₁ e₂ : List (String × Metric)) (k : String) (hst : Histogram)
    (he : m.each = e₁ ++ (k, Metric.histogram hst) :: e₂) :
    (∀ key ∈ histogramKeys k, ∃ v, Snapshot.lookup all (Metrics.type m) ns key = some v) ∧
    (∃ all₀, buildSnapshot (pre ++ { m with each := e₁ ++ e₂ } :: post) = some all₀ ∧
      Snapshot.lookup all (Metrics.type m) ns k = all₀.lookup (Metrics.type m) ns k ∧
      ∀ t' ns' key, (t' ≠ Metrics.type m ∨ ns' ≠ ns ∨ key ∉ histogramKeys k) →
        Snapshot.lookup all t' ns' key = all₀.lookup t' ns' key) ∧
    k ∉ histogramKeys k ∧
    percents.map (fun p => k ++ "." ++ FormatFloat (Float64.mul p (Float64.ofNat 100)) ++ "%")
      = (histogramKeys k).take 5 ∧
    (noLaterWrite e₂ post (Metrics.type m) ns (k ++ ".50.00%") →
      Snapshot.lookup all (Metrics.type m) ns (k ++ ".50.00%") = some (FormatFloat ((Histogram.Percentiles hst percents).getD 0 Float64.nan))) ∧
    (noLaterWrite e₂ post (Metrics.type m) ns (k ++ ".75.00%") →
      Snapshot.lookup all (Metrics.type m) ns (k ++ ".75.00%") = some (FormatFloat ((Histogram.Percentiles hst percents).getD 1 Float64.nan))) ∧
    (noLaterWrite e₂ post (Metrics.type m) ns (k ++ ".95.00%") →
      Snapshot.lookup all (Metrics.type m) ns (k ++ ".95.00%") = some (FormatFloat ((Histogram.Percentiles hst percents).getD 2 Float64.nan))) ∧
    (noLaterWrite e₂ post (Metrics.type m) ns (k ++ ".99.00%") →
      Snapshot.lookup all (Metrics.type m) ns (k ++ ".99.00%") = some (FormatFloat ((Histogram.Percentiles hst percents).getD 3 Float64.nan))) ∧
    (noLaterWrite e₂ post (Metrics.type m) ns (k ++ ".99.90%") →
      Snapshot.lookup all (Metrics.type m) ns (k ++ ".99.90%") = some (FormatFloat ((Histogram.Percentiles hst percents).getD 4 Float64.nan))) ∧
    (noLaterWrite e₂ post (Metrics.type m) ns (k ++ ".count") →
      Snapshot.lookup all (Metrics.type m) ns (k ++ ".count") = some (FormatInt (Histogram.count hst))) ∧
    (noLaterWrite e₂ post (Metrics.type m) ns (k ++ ".min") →
      Snapshot.lookup all (Metrics.type m) ns (k ++ ".min") = some (FormatInt (Histogram.min hst))) ∧
    (noLaterWrite e₂ post (Metrics.type m) ns (k ++ ".max") →
      Snapshot.lookup all (Metrics.type m) ns (k ++ ".max") = some (FormatInt (Histogram.max hst))) ∧
    (noLaterWrite e₂ post (Metrics.type m) ns (k ++ ".mean") →
      Snapshot.lookup all (Metrics.type m) ns (k ++ ".mean") = some (FormatFloat (Histogram.mean hst))) ∧
    (noLaterWrite e₂ post (Metrics.type m) ns (k ++ ".stddev") →
      Snapshot.lookup all (Metrics.type m) ns (k ++ ".stddev") = some (FormatFloat (Histogram.stdDev hst))) := by
  subst hms
  have hm : m ∈ pre ++ m :: post := List.mem_append_right _ (List.mem_cons_self _ _)
  have hmemH : ∀ kv ∈ metricWrites k (Metric.histogram hst), kv ∈ groupWrites m := by
    intro kv hkv
    rw [groupWrites_split m e₁ e₂ k _ he]
    exact List.mem_append_left _ (List.mem_append_right _ hkv)
  have hnot : ∀ key, key ∉ histogramKeys k →
      ∀ kv ∈ metricWrites k (Metric.histogram hst), kv.1 ≠ key := by
    intro key hkey kv hkv heq
    apply hkey
    rw [← histogramKeys_eq k hst, ← heq]
    exact List.mem_map_of_mem Prod.fst hkv
  have hlabels := (flushEach_histogram [] k hst).2.2.2.2.1
  obtain ⟨all₀, h₀⟩ := buildSnapshot_without_metric pre post m (e₁ ++ e₂) all h
  have hsame : ∀ t' ns' key, (t' ≠ m.type ∨ ns' ≠ ns ∨ key ∉ histogramKeys k) →
      all.lookup t' ns' key = all₀.lookup t' ns' key := by
    intro t' ns' key hor
    apply lookup_without_metric pre post m e₁ e₂ k _ he all all₀ h h₀ t' ns' key
    intro ht hn
    rcases hor with h₁ | h₁ | h₁
    · exact absurd ht.symm h₁
    · rw [hns] at hn
      exact absurd (Option.some.inj hn).symm h₁
    · exact hnot key h₁
  refine ⟨?_, ⟨all₀, h₀, hsame _ _ _ (Or.inr (Or.inr (not_mem_histogramKeys_self k))), hsame⟩,
    not_mem_histogramKeys_self k, hlabels, ?_, ?_, ?_, ?_, ?_, ?_, ?_, ?_, ?_, ?_⟩
  · intro key hkey
    rw [← histogramKeys_eq k hst] at hkey
    obtain ⟨kv, hkv, rfl⟩ := List.mem_map.mp hkey
    exact lookup_isSome_of_write _ all h m hm ns hns kv (hmemH kv hkv)
  all_goals
    intro hl
    first
    | exact lookup_of_write _ all h pre post m rfl ns hns e₁ e₂ k _ he
        ((metricWrites k (Metric.histogram hst)).take 0)
        ((metricWrites k (Metric.histogram hst)).drop 1) _ _ rfl
        (by simp [metricWrites, append_left_cancel_iff]) hl
    | exact lookup_of_write _ all h pre post m rfl ns hns e₁ e₂ k _ he
        ((metricWrites k (Metric.histogram hst)).take 1)
        ((metricWrites k (Metric.histogram hst)).drop 2) _ _ rfl
        (by simp [metricWrites, append_left_cancel_iff]) hl
    | exact lookup_of_write _ all h pre post m rfl ns hns e₁ e₂ k _ he
        ((metricWrites k (Metric.histogram hst)).take 2)
        ((metricWrites k (Metric.histogram hst)).drop 3) _ _ rfl
        (by simp [metricWrites, append_left_cancel_iff]) hl
    | exact lookup_of_write _ all h pre post m rfl ns hns e₁ e₂ k _ he
        ((metricWrites k (Metric.histogram hst)).take 3)
        ((metricWrites k (Metric.histogram hst)).drop 4) _ _ rfl
        (by simp [metricWrites, append_left_cancel_iff]) hl
    | exact lookup_of_write _ all h pre post m rfl ns hns e₁ e₂ k _ he
        ((metricWrites k (Metric.histogram hst)).take 4)
        ((metricWrites k (Metric.histogram hst)).drop 5) _ _ rfl
        (by simp [metricWrites, append_left_cancel_iff]) hl
    | exact lookup_of_write _ all h pre post m rfl ns hns e₁ e₂ k _ he
        ((metricWrites k (Metric.histogram hst)).take 5)
        ((metricWrites k (Metric.histogram hst)).drop 6) _ _ rfl
        (by simp [metricWrites, append_left_cancel_iff]) hl
    | exact lookup_of_write _ all h pre post m rfl ns hns e₁ e₂ k _ he
        ((metricWrites k (Metric.histogram hst)).take 6)
        ((metricWrites k (Metric.histogram hst)).drop 7) _ _ rfl
        (by simp [metricWrites, append_left_cancel_iff]) hl
    | exact lookup_of_write _ all h pre post m rfl ns hns e₁ e₂ k _ he
        ((metricWrites k (Metric.histogram hst)).take 7)
        ((metricWrites k (Metric.histogram hst)).drop 8) _ _ rfl
        (by simp [metricWrites, append_left_cancel_iff]) hl
    | exact lookup_of_write _ all h pre post m rfl ns hns e₁ e₂ k _ he
        ((metricWrites k (Metric.histogram hst)).take 8)
        ((metricWrites k (Metric.histogram hst)).drop 9) _ _ rfl
        (by simp [metricWrites, append_left_cancel_iff]) hl
    | exact lookup_of_write _ all h pre post m rfl ns hns e₁ e₂ k _ he
        ((metricWrites k (Metric.histogram hst)).take 9)
        ((metricWrites k (Metric.histogram hst)).drop 10) _ _ rfl
        (by simp [metricWrites, append_left_cancel_iff]) hl

set_option maxRecDepth 100000 in
/-- Witness of C5: the histogram `lat` of `groupH` in
`[groupH, groupH2, groupC]`. The counter `lat.count` enumerated before it is
overwritten by the count 12 of the histogram; `lat.max` and `lat.mean` are
assigned again later, by a gauge of the group and by `groupH2`. -/
theorem histogram_entries_witness :
    buildSnapshot [groupH, groupH2, groupC] = some sampleSnapshotH ∧
    makeNamespace groupH.labelKeys groupH.labelVals = some "region.us" ∧
    groupH.each = [("lat.count", Metric.counter 1)] ++
      ("lat", Metric.histogram sampleHistogram) :: [("lat.max", Metric.gauge 2)] ∧
    sampleSnapshotH.lookup "t" "region.us" "lat.count" = some "12" ∧
    sampleSnapshotH.lookup "t" "region.us" "lat.99.90%" = some "999.00" ∧
    (
    (∀ key ∈ histogramKeys "lat", ∃ v, Snapshot.lookup sampleSnapshotH (Metrics.type groupH) "region.us" key = some v) ∧
    (∃ all₀, buildSnapshot ([] ++ { groupH with each := [("lat.count", Metric.counter 1)] ++ [("lat.max", Metric.gauge 2)] } :: [groupH2, groupC]) = some all₀ ∧
      Snapshot.lookup sampleSnapshotH (Metrics.type groupH) "region.us" "lat" = all₀.lookup (Metrics.type groupH) "region.us" "lat" ∧
      ∀ t' ns' key, (t' ≠ Metrics.type groupH ∨ ns' ≠ "region.us" ∨ key ∉ histogramKeys "lat") →
        Snapshot.lookup sampleSnapshotH t' ns' key = all₀.lookup t' ns' key) ∧
    "lat" ∉ histogramKeys "lat" ∧
    percents.map (fun p => "lat" ++ "." ++ FormatFloat (Float64.mul p (Float64.ofNat 100)) ++ "%")
      = (histogramKeys "lat").take 5 ∧
    (noLaterWrite [("lat.max", Metric.gauge 2)] [groupH2, groupC] (Metrics.type groupH) "region.us" ("lat" ++ ".50.00%") →
      Snapshot.lookup sampleSnapshotH (Metrics.type groupH) "region.us" ("lat" ++ ".50.00%") = some (FormatFloat ((Histogram.Percentiles sampleHistogram percents).getD 0 Float64.nan))) ∧
    (noLaterWrite [("lat.max", Metric.gauge 2)] [groupH2, groupC] (Metrics.type groupH) "region.us" ("lat" ++ ".75.00%") →
      Snapshot.lookup sampleSnapshotH (Metrics.type groupH) "region.us" ("lat" ++ ".75.00%") = some (FormatFloat ((Histogram.Percentiles sampleHistogram percents).getD 1 Float64.nan))) ∧
    (noLaterWrite [("lat.max", Metric.gauge 2)] [groupH2, groupC] (Metrics.type groupH) "region.us" ("lat" ++ ".95.00%") →
      Snapshot.lookup sampleSnapshotH (Metrics.type groupH) "region.us" ("lat" ++ ".95.00%") = some (FormatFloat ((Histogram.Percentiles sampleHistogram percents).getD 2 Float64.nan))) ∧
    (noLaterWrite [("lat.max", Metric.gauge 2)] [groupH2, groupC] (Metrics.type groupH) "region.us" ("lat" ++ ".99.00%") →
      Snapshot.lookup sampleSnapshotH (Metrics.type groupH) "region.us" ("lat" ++ ".99.00%") = some (FormatFloat ((Histogram.Percentiles sampleHistogram percents).getD 3 Float64.nan))) ∧
    (noLaterWrite [("lat.max", Metric.gauge 2)] [groupH2, groupC] (Metrics.type groupH) "region.us" ("lat" ++ ".99.90%") →
      Snapshot.lookup sampleSnapshotH (Metrics.type groupH) "region.us" ("lat" ++ ".99.90%") = some (FormatFloat ((Histogram.Percentiles sampleHistogram percents).getD 4 Float64.nan))) ∧
    (noLaterWrite [("lat.max", Metric.gauge 2)] [groupH2, groupC] (Metrics.type groupH) "region.us" ("lat" ++ ".count") →
      Snapshot.lookup sampleSnapshotH (Metrics.type groupH) "region.us" ("lat" ++ ".count") = some (FormatInt (Histogram.count sampleHistogram))) ∧
    (noLaterWrite [("lat.max", Metric.gauge 2)] [groupH2, groupC] (Metrics.type groupH) "region.us" ("lat" ++ ".min") →
      Snapshot.lookup sampleSnapshotH (Metrics.type groupH) "region.us" ("lat" ++ ".min") = some (FormatInt (Histogram.min sampleHistogram))) ∧
    (noLaterWrite [("lat.max", Metric.gauge 2)] [groupH2, groupC] (Metrics.type groupH) "region.us" ("lat" ++ ".max") →
      Snapshot.lookup sampleSnapshotH (Metrics.type groupH) "region.us" ("lat" ++ ".max") = some (FormatInt (Histogram.max sampleHistogram))) ∧
    (noLaterWrite [("lat.max", Metric.gauge 2)] [groupH2, groupC] (Metrics.type groupH) "region.us" ("lat" ++ ".mean") →
      Snapshot.lookup sampleSnapshotH (Metrics.type groupH) "region.us" ("lat" ++ ".mean") = some (FormatFloat (Histogram.mean sampleHistogram))) ∧
    (noLaterWrite [("lat.max", Metric.gauge 2)] [groupH2, groupC] (Metrics.type groupH) "region.us" ("lat" ++ ".stddev") →
      Snapshot.lookup sampleSnapshotH (Metrics.type groupH) "region.us" ("lat" ++ ".stddev") = some (FormatFloat (Histogram.stdDev sampleHistogram)))) :=
  ⟨rfl, by decide, rfl, by decide, by decide,
    histogram_entries [groupH, groupH2, groupC] sampleSnapshotH rfl [] [groupH2, groupC]
      groupH rfl "region.us" (by decide) [("lat.count", Metric.counter 1)]
      [("lat.max", Metric.gauge 2)] "lat" sampleHistogram rfl⟩

end Console
